import Mathlib

/-!
Verification of the image cache of the emulsion repository
(`src/image_cache.rs`): a capacity-bounded texture cache with a
background decode pool, directory-order eviction, and next/prev/jump
navigation built on a directory index.

The embedding below translates the cache-owning thread's data and
operations into pure Lean functions.  External collaborators are
modelled at their interface boundary:
  * the filesystem is a pair of functions giving a file's modification
    time (`none` models a stat failure) and its decoded image (`none`
    models a decode failure, surfaced in Rust as
    `ErrorKind::ImageLoadError`);
  * the GPU renderer always succeeds and allocates a fresh
    reference-counted texture handle, modelled by a counter in the
    loader state, so that handle identity (Rc sharing) is observable;
  * paths are file names (all viewing happens inside one directory and
    keys are canonicalized paths, which correspond one to one with file
    names there), and `Path::extension` is modelled as an observable
    field of a directory entry, with `none` covering both a missing and
    a non-UTF-8 extension;
  * the decode worker pool is modelled by its observable effects: the
    queue of dispatched requests (`pending`) and the queue of delivered
    responses (`incoming`).
The `HashMap` texture cache is embedded as an association list with
first-occurrence lookup/insert/erase, which is exactly the observable
behaviour of a map that never holds two entries for one key.

The size estimate `((w*h*4) as f32 * 1.5) as u32` is embedded as
`w*h*4*3/2`; the two agree exactly whenever `w*h*4 < 2^24` (the f32
mantissa), which covers every concrete input used here.
-/

set_option maxHeartbeats 1000000

namespace Emulsion

/-- A decoded RGBA pixel buffer; only its dimensions are inspected by the
cache logic. -/
structure Image where
  width : Nat
  height : Nat
deriving DecidableEq, Repr

/-- A GPU texture. `tid` models the identity of the underlying
reference-counted allocation (`Rc<SrgbTexture2d>`): two handles with the
same `tid` are clones of one `Rc`. -/
structure Tex where
  tid : Nat
  width : Nat
  height : Nat
deriving DecidableEq, Repr

/-- `CachedTexture` from the source: either a finished entry carrying the
file's modification time and the shared texture handle, or a pending
decode request. -/
inductive CachedTexture where
  | Texture (modified : Nat) (tex : Tex)
  | LoadRequested
deriving DecidableEq, Repr

/-- The error taxonomy of `errors::Error`, flattened to the cases the
cache logic distinguishes. `ioError` covers canonicalize/stat failures,
`imgLoad` is `ErrorKind::ImageLoadError`, `texCreate` is the renderer's
`TextureCreationError` (the `?` on `texture_from_image`), the remaining
message errors get one constructor each, and `panicked` models reaching
an `unreachable!()` or a failing `unwrap()`. -/
inductive CErr where
  | ioError
  | imgLoad
  | texCreate
  | shouldBeSupported
  | jumpFailed
  | currentNotFound
  | notInCache
  | panicked
deriving DecidableEq, Repr

/-- A directory entry as observed by the cache: its file name, its
extension (`none`: no extension or a non-UTF-8 one) and whether it is a
plain file. -/
structure DirEntryM where
  name : String
  ext : Option String
  isFile : Bool
deriving DecidableEq, Repr

/-- A message on the worker-to-owner channel: path, stat metadata
(modification time) and the decoded image. -/
structure Response where
  path : String
  modified : Nat
  img : Image
deriving DecidableEq, Repr

/-- The external collaborators threaded through every operation: the
filesystem (per-path modification time and decode result) and the
renderer bound to the `display` handle (`texOk im` tells whether
uploading the decoded image `im` succeeds — `SrgbTexture2d::with_mipmaps`
can fail with a `TextureCreationError`). -/
structure FS where
  meta : String → Option Nat
  img : String → Option Image
  texOk : Image → Bool

instance {ε α : Type} [DecidableEq ε] [DecidableEq α] : DecidableEq (Except ε α)
  | Except.ok a, Except.ok b =>
    if h : a = b then isTrue (h ▸ rfl) else isFalse (fun hh => h (Except.ok.inj hh))
  | Except.ok _, Except.error _ => isFalse (fun hh => Except.noConfusion hh)
  | Except.error _, Except.ok _ => isFalse (fun hh => Except.noConfusion hh)
  | Except.error e, Except.error e2 =>
    if h : e = e2 then isTrue (h ▸ rfl) else isFalse (fun hh => h (Except.error.inj hh))

/-- First-occurrence association-list lookup (HashMap `get`). -/
def tcLookup (p : String) : List (String × CachedTexture) → Option CachedTexture
  | [] => none
  | (q, v) :: rest => if q = p then some v else tcLookup p rest

/-- Replace the first entry for `p`, or append a new one (HashMap
`insert` / entry API write). -/
def tcInsert (p : String) (v : CachedTexture) :
    List (String × CachedTexture) → List (String × CachedTexture)
  | [] => [(p, v)]
  | (q, w) :: rest => if q = p then (q, v) :: rest else (q, w) :: tcInsert p v rest

/-- Remove the first entry for `p` (HashMap `remove`). -/
def tcErase (p : String) :
    List (String × CachedTexture) → List (String × CachedTexture)
  | [] => []
  | (q, w) :: rest => if q = p then rest else (q, w) :: tcErase p rest

/-- `TextureLoader::get_image_size_estimate`: `w * h * 4` RGBA bytes
times the 1.5 mip-chain multiplier. -/
def get_image_size_estimate (w h : Nat) : Nat :=
  w * h * 4 * 3 / 2

def pngS : String := "png"
def jpgS : String := "jpg"
def bmpS : String := "bmp"
def gifS : String := "gif"
def tiffS : String := "tiff"
def webpS : String := "webp"
def pnmS : String := "pnm"

/-- `str::to_lowercase` on an extension, modelled character by
character (extensions are ASCII, where Rust's full Unicode lowering and
per-character ASCII lowering agree). -/
def toLowerStr (s : String) : String :=
  ⟨s.data.map Char.toLower⟩

/-- `TextureLoader::is_file_supported`, taking the path's extension
observable (`none`: no extension, or not valid UTF-8); the multi-pattern
`match` of the source on the lowercased extension. -/
def is_file_supported (ext : Option String) : Bool :=
  match ext with
  | none => false
  | some e =>
    let l := toLowerStr e
    l == pngS || l == jpgS || l == bmpS || l == gifS || l == tiffS || l == webpS || l == pnmS

/-- A directory entry that the jump scan counts as a candidate: a plain
file with a supported extension. -/
def supported_file (f : DirEntryM) : Bool :=
  f.isFile && is_file_supported f.ext

/-- The loader state: last decoded image's size estimate, the signed
remaining byte budget, the texture cache table, the undelivered worker
responses, the dispatched decode requests, and the allocation counter
for texture handles. -/
structure TextureLoader where
  curr_est_size : Nat
  remaining_capacity : Int
  texture_cache : List (String × CachedTexture)
  incoming : List Response
  pending : List String
  tex_counter : Nat
deriving DecidableEq, Repr

/-- `TextureLoader::new` (the spawned worker threads live outside the
state; `curr_est_size` starts as `capacity as usize`). -/
def TextureLoader.init (capacity : Int) : TextureLoader :=
  { curr_est_size := capacity.toNat
    remaining_capacity := capacity
    texture_cache := []
    incoming := []
    pending := []
    tex_counter := 0 }

/-- `TextureLoader::texture_from_image`: upload a decoded image.  On
success it allocates a fresh shared handle; the renderer can reject the
upload with a `TextureCreationError`, in which case no handle is
allocated. -/
def texture_from_image (fs : FS) (s : TextureLoader) (im : Image) :
    Except CErr (Tex × TextureLoader) :=
  if fs.texOk im then
    Except.ok (⟨s.tex_counter, im.width, im.height⟩, { s with tex_counter := s.tex_counter + 1 })
  else Except.error CErr.texCreate

/-- One iteration of the `process_prefetched` drain loop: apply a single
worker response to the table and budget.  A response for an untracked
path hits `unreachable!()`; a failing upload propagates (`?`) before any
table or budget mutation for this response.  A `Loaded` entry is
replaced only when the response's modification time is strictly
newer. -/
def process_one (fs : FS) (s : TextureLoader) (r : Response) : Except CErr TextureLoader :=
  let size_estimate : Int := get_image_size_estimate r.img.width r.img.height
  match tcLookup r.path s.texture_cache with
  | none => Except.error CErr.panicked
  | some (CachedTexture.Texture t old_tex) =>
    if t < r.modified then
      let old_size_estimate : Int := get_image_size_estimate old_tex.width old_tex.height
      match texture_from_image fs s r.img with
      | Except.error e => Except.error e
      | Except.ok ts =>
        Except.ok { ts.2 with
          texture_cache := tcInsert r.path (CachedTexture.Texture r.modified ts.1) ts.2.texture_cache
          remaining_capacity := ts.2.remaining_capacity + old_size_estimate - size_estimate }
    else Except.ok s
  | some CachedTexture.LoadRequested =>
    match texture_from_image fs s r.img with
    | Except.error e => Except.error e
    | Except.ok ts =>
      Except.ok { ts.2 with
        texture_cache := tcInsert r.path (CachedTexture.Texture r.modified ts.1) ts.2.texture_cache
        remaining_capacity := ts.2.remaining_capacity - size_estimate }

/-- The drain loop of `process_prefetched` over the queued responses; on
a propagated error the remaining responses stay queued. -/
def drain_go (fs : FS) (s : TextureLoader) : List Response → Except CErr Unit × TextureLoader
  | [] => (Except.ok (), s)
  | r :: rest =>
    match process_one fs s r with
    | Except.error e => (Except.error e, { s with incoming := rest })
    | Except.ok s1 => drain_go fs s1 rest

/-- `TextureLoader::process_prefetched`: drain every queued worker
response into the table. -/
def process_prefetched (fs : FS) (s : TextureLoader) : Except CErr Unit × TextureLoader :=
  drain_go fs { s with incoming := [] } s.incoming

/-- The index the eviction pass compares against: position of the loaded
file's name in `dir_files`, defaulting to 0 when absent. -/
def current_pos_of (dir_files : List DirEntryM) (pathName : String) : Nat :=
  (List.findIdx? (fun f => f.name == pathName) dir_files).getD 0

/-- The eviction loop of `load_specific`.  It walks
`cached_ordered` (directory entries whose path is in the table,
`enumerate`d AFTER the filter, so `file_pos` is the index within the
cached sublist); while the budget is short and `file_pos` is strictly
before `current_pos` it removes `Texture` entries and refunds their
estimate, and it stops at the first pair failing that condition. -/
def evict_pass (need : Int) (current_pos : Nat) :
    List (Nat × DirEntryM) → List (String × CachedTexture) → Int →
    List (String × CachedTexture) × Int
  | [], cache, cap => (cache, cap)
  | (file_pos, f) :: rest, cache, cap =>
    if cap < need ∧ file_pos < current_pos then
      match tcLookup f.name cache with
      | some (CachedTexture.Texture _ tex) =>
        evict_pass need current_pos rest (tcErase f.name cache)
          (cap + (get_image_size_estimate tex.width tex.height : Int))
      | _ => evict_pass need current_pos rest cache cap
    else (cache, cap)

/-- The eviction step of `load_specific`: when the budget cannot absorb
`need`, run `evict_pass` over the directory entries whose path is
cached (`enumerate`d after the filter, as in the source) and store the
resulting table and budget. -/
def evicted_state (s2 : TextureLoader) (need : Int) (pathName : String)
    (dir_files : List DirEntryM) : TextureLoader :=
  if s2.remaining_capacity < need then
    { s2 with
      texture_cache :=
        (evict_pass need (current_pos_of dir_files pathName)
          ((dir_files.filter (fun f => (tcLookup f.name s2.texture_cache).isSome)).enum)
          s2.texture_cache s2.remaining_capacity).1
      remaining_capacity :=
        (evict_pass need (current_pos_of dir_files pathName)
          ((dir_files.filter (fun f => (tcLookup f.name s2.texture_cache).isSome)).enum)
          s2.texture_cache s2.remaining_capacity).2 }
  else s2

/-- `self.remaining_capacity -= image_size_estimate`. -/
def sub_need (s : TextureLoader) (need : Int) : TextureLoader :=
  { s with remaining_capacity := s.remaining_capacity - need }

/-- The final entry write of `load_specific`: a vacant or `LoadRequested`
entry receives the freshly uploaded texture; an existing `Texture` entry
here is `unreachable!()` in the source. -/
def admit_finish (pathName : String) (mtime : Nat) (ts : Tex × TextureLoader) :
    Except CErr Tex × TextureLoader :=
  match tcLookup pathName ts.2.texture_cache with
  | some (CachedTexture.Texture _ _) => (Except.error CErr.panicked, ts.2)
  | _ =>
    (Except.ok ts.1,
     { ts.2 with
       texture_cache := tcInsert pathName (CachedTexture.Texture mtime ts.1) ts.2.texture_cache })

/-- The upload-then-insert tail of admission.  The budget has already
been charged (`sub_need`, the source's line-295 decrement), so a failing
upload returns with the budget debited and no entry written — the
source's charge-before-fallible-upload ordering. -/
def admit_upload (fs : FS) (pathName : String) (mtime : Nat) (s4 : TextureLoader)
    (image : Image) : Except CErr Tex × TextureLoader :=
  match texture_from_image fs s4 image with
  | Except.error e => (Except.error e, s4)
  | Except.ok ts => admit_finish pathName mtime ts

/-- The post-decode tail of `load_specific`: record the new typical size
estimate, evict if needed, charge the budget, then upload and write the
table entry. -/
def admit_image (fs : FS) (s1 : TextureLoader) (pathName : String)
    (dir_files : List DirEntryM) (mtime : Nat) (image : Image) :
    Except CErr Tex × TextureLoader :=
  admit_upload fs pathName mtime
    (sub_need
      (evicted_state { s1 with curr_est_size := get_image_size_estimate image.width image.height }
        (get_image_size_estimate image.width image.height) pathName dir_files)
      (get_image_size_estimate image.width image.height))
    image

/-- The tail of `TextureLoader::load_specific` after a cache miss:
synchronous decode (an `ImageLoadError` on failure), then admission. -/
def load_fresh (fs : FS) (s1 : TextureLoader) (pathName : String)
    (dir_files : List DirEntryM) (mtime : Nat) : Except CErr Tex × TextureLoader :=
  match fs.img pathName with
  | none => (Except.error CErr.imgLoad, s1)
  | some image => admit_image fs s1 pathName dir_files mtime image

/-- `TextureLoader::load_specific`: canonicalize and stat the path (one
`none` check here, since both fail exactly when the file is
unreachable), drain pending responses, return the shared handle on an
exact modification-time cache hit, else decode and admit. -/
def load_specific (fs : FS) (s : TextureLoader) (pathName : String)
    (dir_files : List DirEntryM) : Except CErr Tex × TextureLoader :=
  match fs.meta pathName with
  | none => (Except.error CErr.ioError, s)
  | some mtime =>
    match process_prefetched fs s with
    | (Except.error e, s1) => (Except.error e, s1)
    | (Except.ok _, s1) =>
      match tcLookup pathName s1.texture_cache with
      | some (CachedTexture.Texture t tex) =>
        if t = mtime then (Except.ok tex, s1)
        else load_fresh fs s1 pathName dir_files mtime
      | _ => load_fresh fs s1 pathName dir_files mtime

/-- `TextureLoader::MAX_BULK_PREFETCH_REQUEST`. -/
def MAX_BULK_PREFETCH_REQUEST : Nat := 4

/-- The first loop of `send_load_requests`: advance past the current
file (consuming it), or through the whole list when absent. -/
def drop_through (current : String) : List DirEntryM → List DirEntryM
  | [] => []
  | f :: rest => if f.name == current then rest else drop_through current rest

/-- One candidate of the `send_load_requests` loop: a vacant entry with a
supported extension is inserted as `LoadRequested` and enqueued; a
`Texture` entry whose stored modification time differs from the file's
current one is re-enqueued without a state change (a failing stat is an
`unwrap` panic); anything else is left alone. -/
def send_step (fs : FS) (s : TextureLoader) (f : DirEntryM) : Except CErr TextureLoader :=
  match tcLookup f.name s.texture_cache with
  | none =>
    if is_file_supported f.ext then
      Except.ok { s with
        texture_cache := tcInsert f.name CachedTexture.LoadRequested s.texture_cache
        pending := s.pending ++ [f.name] }
    else Except.ok s
  | some (CachedTexture.Texture t _) =>
    match fs.meta f.name with
    | none => Except.error CErr.panicked
    | some m =>
      if t ≠ m then Except.ok { s with pending := s.pending ++ [f.name] }
      else Except.ok s
  | some CachedTexture.LoadRequested => Except.ok s

/-- The request loop of `send_load_requests`: while the projected budget
exceeds `curr_est` (the typical-size estimate) take the next candidate,
run `send_step` on it, charge one `curr_est` against the projection and
one slot against the per-call maximum of `MAX_BULK_PREFETCH_REQUEST`
candidates, supported or not. -/
def send_go (fs : FS) (curr_est : Nat) :
    List DirEntryM → TextureLoader → Int → Nat → Except CErr Unit × TextureLoader
  | rest, s, cap, requested =>
    if cap > (curr_est : Int) then
      match rest with
      | [] => (Except.ok (), s)
      | f :: rest2 =>
        match send_step fs s f with
        | Except.error e => (Except.error e, s)
        | Except.ok s1 =>
          if requested + 1 ≥ MAX_BULK_PREFETCH_REQUEST then (Except.ok (), s1)
          else send_go fs curr_est rest2 s1 (cap - (curr_est : Int)) (requested + 1)
    else (Except.ok (), s)

/-- `TextureLoader::send_load_requests`. -/
def send_load_requests (fs : FS) (s : TextureLoader) (dir_files : List DirEntryM)
    (current_name : String) : Except CErr Unit × TextureLoader :=
  send_go fs s.curr_est_size (drop_through current_name dir_files) s s.remaining_capacity 0

/-- The shared cursor-locating phase of `load_iter_next` and
`load_iter_jump`: scan for the first plain-file entry named `current`
and return what follows it. -/
def findCurrent (current : String) : List DirEntryM → Option (List DirEntryM)
  | [] => none
  | f :: rest =>
    if f.isFile && f.name == current then some rest else findCurrent current rest

/-- The candidate loop of `load_iter_next`: for each plain-file entry try
`load_specific`; an `ImageLoadError` skips to the next candidate, any
other error aborts, a success returns the handle and the file name.
Exhausting the sequence yields the same could-not-find-current error as
never locating the cursor. -/
def next_scan (fs : FS) (dir_files : List DirEntryM) :
    List DirEntryM → TextureLoader → Except CErr (Tex × String) × TextureLoader
  | [], s => (Except.error CErr.currentNotFound, s)
  | f :: rest, s =>
    if f.isFile then
      match load_specific fs s f.name dir_files with
      | (Except.ok tex, s1) => (Except.ok (tex, f.name), s1)
      | (Except.error e, s1) =>
        if e = CErr.imgLoad then next_scan fs dir_files rest s1
        else (Except.error e, s1)
    else next_scan fs dir_files rest s

/-- `TextureLoader::load_iter_next`. -/
def load_iter_next (fs : FS) (s : TextureLoader) (entries_twice : List DirEntryM)
    (dir_files : List DirEntryM) (current_name : String) :
    Except CErr (Tex × String) × TextureLoader :=
  match findCurrent current_name entries_twice with
  | none => (Except.error CErr.currentNotFound, s)
  | some rest => next_scan fs dir_files rest s

/-- The candidate loop of `load_iter_jump`: count down `jump_remaining`
over plain-file entries with a supported extension, then attempt
`load_specific` on the candidate reached at zero; an `ImageLoadError`
there is escalated to the should-have-been-supported error.  Exhausting
the sequence is the could-not-jump error. -/
def jump_scan (fs : FS) (dir_files : List DirEntryM) :
    List DirEntryM → TextureLoader → Nat → Except CErr (Tex × String) × TextureLoader
  | [], s, _ => (Except.error CErr.jumpFailed, s)
  | f :: rest, s, n =>
    if f.isFile then
      if is_file_supported f.ext then
        if n = 0 then
          match load_specific fs s f.name dir_files with
          | (Except.ok tex, s1) => (Except.ok (tex, f.name), s1)
          | (Except.error e, s1) =>
            if e = CErr.imgLoad then (Except.error CErr.shouldBeSupported, s1)
            else (Except.error e, s1)
        else jump_scan fs dir_files rest s (n - 1)
      else jump_scan fs dir_files rest s n
    else jump_scan fs dir_files rest s n

/-- `TextureLoader::load_iter_jump`. -/
def load_iter_jump (fs : FS) (s : TextureLoader) (entries_twice : List DirEntryM)
    (jump_count : Nat) (dir_files : List DirEntryM) (current_name : String) :
    Except CErr (Tex × String) × TextureLoader :=
  match findCurrent current_name entries_twice with
  | none => (Except.error CErr.currentNotFound, s)
  | some rest => jump_scan fs dir_files rest s jump_count

/-- `ImageCache`: the directory cursor, the sorted directory index, and
the loader. -/
structure ImageCache where
  current_name : String
  dir_files : List DirEntryM
  loader : TextureLoader
deriving DecidableEq, Repr

/-- The result handling every navigation entry point repeats: store the
returned loader and, on success only, set the cursor to the returned
file name. -/
def nav_wrap (c : ImageCache) (r : Except CErr (Tex × String) × TextureLoader) :
    Except CErr (Tex × String) × ImageCache :=
  match r.1 with
  | Except.ok v => (r.1, { c with loader := r.2, current_name := v.2 })
  | Except.error _ => (r.1, { c with loader := r.2 })

/-- `ImageCache::load_next`: scan the directory index chained with
itself; on success the returned file name becomes the cursor. -/
def ImageCache.load_next (fs : FS) (c : ImageCache) :
    Except CErr (Tex × String) × ImageCache :=
  nav_wrap c (load_iter_next fs c.loader (c.dir_files ++ c.dir_files) c.dir_files c.current_name)

/-- `ImageCache::load_prev`: the same scan over the reversed doubled
index. -/
def ImageCache.load_prev (fs : FS) (c : ImageCache) :
    Except CErr (Tex × String) × ImageCache :=
  nav_wrap c (load_iter_next fs c.loader ((c.dir_files ++ c.dir_files).reverse)
      c.dir_files c.current_name)

/-- `ImageCache::load_jump`: zero answers from the cache alone (an error
when the cursor has no `Texture` entry); otherwise run `load_iter_jump`
over the doubled index, reversed for a negative count, with the
magnitude as the count, and update the cursor on success. -/
def ImageCache.load_jump (fs : FS) (c : ImageCache) (jump_count : Int) :
    Except CErr (Tex × String) × ImageCache :=
  if jump_count = 0 then
    match tcLookup c.current_name c.loader.texture_cache with
    | some (CachedTexture.Texture _ tex) => (Except.ok (tex, c.current_name), c)
    | _ => (Except.error CErr.notInCache, c)
  else
    let seq :=
      if jump_count < 0 then (c.dir_files ++ c.dir_files).reverse
      else c.dir_files ++ c.dir_files
    nav_wrap c (load_iter_jump fs c.loader seq jump_count.natAbs c.dir_files c.current_name)

/-- One cache operation of the owning thread, or a worker delivering a
decode result onto the response queue. -/
inductive CacheOp where
  | loadSpec (fs : FS) (path : String) (dir_files : List DirEntryM)
  | drainOp (fs : FS)
  | sendRequests (fs : FS) (dir_files : List DirEntryM) (current : String)
  | deliver (r : Response)

/-- Run one `CacheOp` on the loader state. -/
def run_op : CacheOp → TextureLoader → Except CErr Unit × TextureLoader
  | CacheOp.loadSpec fs p d, s =>
    let r := load_specific fs s p d
    (r.1.map (fun _ => ()), r.2)
  | CacheOp.drainOp fs, s => process_prefetched fs s
  | CacheOp.sendRequests fs d cur, s => send_load_requests fs s d cur
  | CacheOp.deliver r, s => (Except.ok (), { s with incoming := s.incoming ++ [r] })

/-- Run a sequence of cache operations. -/
def run_ops : List CacheOp → TextureLoader → TextureLoader
  | [], s => s
  | op :: rest, s => run_ops rest (run_op op s).2

/-- Whether a result is the model of a Rust panic. -/
def is_panicked (r : Except CErr Unit) : Bool :=
  match r with
  | Except.error CErr.panicked => true
  | _ => false

/-- A run in which no operation reaches an `unreachable!()` or a failing
`unwrap()` (in Rust such a run is the only one that completes). -/
def no_panic_run : List CacheOp → TextureLoader → Bool
  | [], _ => true
  | op :: rest, s => !is_panicked (run_op op s).1 && no_panic_run rest (run_op op s).2

/-- Whether a result is a panic or a texture-creation failure — the two
outcomes that interrupt an operation after the budget may already have
been charged. -/
def is_abnormal (r : Except CErr Unit) : Bool :=
  match r with
  | Except.error CErr.panicked => true
  | Except.error CErr.texCreate => true
  | _ => false

/-- A run in which no operation panics and no texture upload fails. -/
def clean_run : List CacheOp → TextureLoader → Bool
  | [], _ => true
  | op :: rest, s => !is_abnormal (run_op op s).1 && clean_run rest (run_op op s).2

/-- The size estimate a table entry contributes to resident memory:
`Texture` entries count their texture's estimate, pending requests
count nothing. -/
def entry_estimate : CachedTexture → Int
  | CachedTexture.Texture _ tex => get_image_size_estimate tex.width tex.height
  | CachedTexture.LoadRequested => 0

/-- Sum of the size estimates of all `Loaded` entries in the table. -/
def loaded_sum (cache : List (String × CachedTexture)) : Int :=
  cache.foldr (fun kv acc => entry_estimate kv.2 + acc) 0

/-- The file names of a directory index, in order. -/
def names_of (l : List DirEntryM) : List String :=
  l.map (fun f => f.name)

/-- Every `Loaded` entry's stored modification time matches the file's
current one: the cache reflects a filesystem that has not mutated since
the entries were admitted. -/
def CacheConsistent (fs : FS) (s : TextureLoader) : Prop :=
  ∀ p t tex, tcLookup p s.texture_cache = some (CachedTexture.Texture t tex) →
    fs.meta p = some t

/-- The association list holds at most one entry per key — the invariant
of the `HashMap` it embeds. -/
def KeysNodup (cache : List (String × CachedTexture)) : Prop :=
  (cache.map Prod.fst).Nodup

/-! Concrete fixtures used by witnesses, counterexamples and failing
inputs: a handful of file names, directory entries, filesystems and
loader states. -/

def aPngS : String := "a.png"
def bPngS : String := "b.png"
def cPngS : String := "c.png"
def dPngS : String := "d.png"
def curPngS : String := "cur.png"
def tTxtS : String := "t.txt"
def txtS : String := "txt"

def entA : DirEntryM := ⟨aPngS, some pngS, true⟩
def entB : DirEntryM := ⟨bPngS, some pngS, true⟩
def entC : DirEntryM := ⟨cPngS, some pngS, true⟩
def entD : DirEntryM := ⟨dPngS, some pngS, true⟩
def entCur : DirEntryM := ⟨curPngS, some pngS, true⟩
def entT : DirEntryM := ⟨tTxtS, some txtS, true⟩

def dirAB : List DirEntryM := [entA, entB]
def dirABC : List DirEntryM := [entA, entB, entC]

/-- A filesystem on which only `b.png` exists: modification time 1,
decodes to a 10 by 10 image. -/
def fsOnlyB : FS :=
  { meta := fun p => if p = bPngS then some 1 else none
    img := fun p => if p = bPngS then some ⟨10, 10⟩ else none
    texOk := fun _ => true }

/-- A loader whose cache already holds `c.png` as a `Loaded` 100 by 100
texture, with almost no remaining budget. -/
def sHoldsC : TextureLoader :=
  { curr_est_size := 100
    remaining_capacity := 5
    texture_cache := [(cPngS, CachedTexture.Texture 0 ⟨77, 100, 100⟩)]
    incoming := []
    pending := []
    tex_counter := 0 }

/-- A filesystem on which `a.png` and `b.png` exist (modification time
0) and decode to 10 by 10 images. -/
def fsAB : FS :=
  { meta := fun p => if p = aPngS ∨ p = bPngS then some 0 else none
    img := fun p => if p = aPngS ∨ p = bPngS then some ⟨10, 10⟩ else none
    texOk := fun _ => true }

/-- A filesystem on which `a.png`, `b.png` and `c.png` exist and decode
to 1 by 1 images. -/
def fsABC : FS :=
  { meta := fun p => if p = aPngS ∨ p = bPngS ∨ p = cPngS then some 0 else none
    img := fun p => if p = aPngS ∨ p = bPngS ∨ p = cPngS then some ⟨1, 1⟩ else none
    texOk := fun _ => true }

/-- A loader already holding `b.png` as a `Loaded` entry whose stored
modification time (1) matches `fsOnlyB`. -/
def sHoldsB : TextureLoader :=
  { curr_est_size := 100
    remaining_capacity := 50
    texture_cache := [(bPngS, CachedTexture.Texture 1 ⟨9, 10, 10⟩)]
    incoming := []
    pending := []
    tex_counter := 10 }

/-- The loader state after a fresh successful load of `b.png` from
`TextureLoader.init 100000` on `fsOnlyB`. -/
def sAfterB : TextureLoader :=
  { curr_est_size := 600
    remaining_capacity := 99400
    texture_cache := [(bPngS, CachedTexture.Texture 1 ⟨0, 10, 10⟩)]
    incoming := []
    pending := []
    tex_counter := 1 }

/-- A filesystem where `a.png` and `b.png` stat (modification time 0)
but nothing decodes: every decode attempt is an `ImageLoadError`, every
other path an io error. -/
def fsMetaNoImg : FS :=
  { meta := fun p => if p = aPngS ∨ p = bPngS then some 0 else none
    img := fun _ => none
    texOk := fun _ => true }

/-- A filesystem-and-renderer pair on which `a.png` (a 2 by 2 image) and
`b.png` (a 1 by 1 image) both stat and decode, but the renderer rejects
every upload except 1-pixel-wide images: `b.png` uploads, `a.png` does
not. -/
def fsUploadA : FS :=
  { meta := fun p => if p = aPngS ∨ p = bPngS then some 0 else none
    img := fun p =>
      if p = aPngS then some ⟨2, 2⟩ else if p = bPngS then some ⟨1, 1⟩ else none
    texOk := fun im => im.width == 1 }

/-- Projection of a navigation result to the returned file name. -/
def result_name (r : Except CErr (Tex × String)) : Option String :=
  match r with
  | Except.ok v => some v.2
  | Except.error _ => none

/-- The loader's accounted total: `remaining_capacity` plus the size
estimates of all `Loaded` entries.  It starts at the configured budget,
is preserved exactly by every operation step except the two abnormal
interruptions (a panic or an upload failure after the line-295 budget
charge), and those can only decrease it. -/
def acct (s : TextureLoader) : Int :=
  s.remaining_capacity + loaded_sum s.texture_cache

/-- Specification-level restatement of the nonzero-jump behaviour (the
amended claim): locate the cursor in the doubled — reversed when the
count is negative — sequence, skip exactly `jump_count.natAbs` supported
plain-file candidates, and attempt `load_specific` on the next one,
whose name becomes the cursor on success; a decode failure there is
escalated. -/
def jump_spec (fs : FS) (c : ImageCache) (jump_count : Int) :
    Except CErr (Tex × String) × ImageCache :=
  let seq :=
    if jump_count < 0 then (c.dir_files ++ c.dir_files).reverse
    else c.dir_files ++ c.dir_files
  match findCurrent c.current_name seq with
  | none => (Except.error CErr.currentNotFound, c)
  | some rest =>
    match (rest.filter supported_file).get? jump_count.natAbs with
    | none => (Except.error CErr.jumpFailed, c)
    | some f =>
      match load_specific fs c.loader f.name c.dir_files with
      | (Except.ok tex, l1) =>
        (Except.ok (tex, f.name), { c with loader := l1, current_name := f.name })
      | (Except.error e, l1) =>
        ((if e = CErr.imgLoad then Except.error CErr.shouldBeSupported else Except.error e),
         { c with loader := l1 })

end Emulsion

namespace Emulsion

/-! ## C10 — the extension whitelist -/

/-- C10: `is_file_supported` returns true exactly when the path has an
extension whose lowercase form is png, jpg, bmp, gif, tiff, webp or pnm;
the check is case-insensitive and a path with no extension (or a
non-UTF-8 one, modelled as `none`) is unsupported. -/
theorem claim_C10_supported_exts :
    ∀ e : Option String,
      is_file_supported e = true ↔
        ∃ s, e = some s ∧
          (toLowerStr s = pngS ∨ toLowerStr s = jpgS ∨ toLowerStr s = bmpS ∨
           toLowerStr s = gifS ∨ toLowerStr s = tiffS ∨ toLowerStr s = webpS ∨
           toLowerStr s = pnmS) := by
  intro e
  cases e with
  | none => simp [is_file_supported]
  | some s =>
    simp only [is_file_supported, Bool.or_eq_true, beq_iff_eq, Option.some.injEq]
    constructor
    · intro h
      exact ⟨s, rfl, by tauto⟩
    · rintro ⟨s', rfl, h⟩
      tauto

/-! ## C7 — load_jump 0 is a pure cache probe -/

/-- C7: `load_jump` with count 0 leaves the whole `ImageCache` state
unchanged (no decode, no eviction, no budget or cursor change — not even
a texture allocation) and returns the cursor's `Loaded` handle, or the
not-in-cache error when the cursor has no `Loaded` entry. -/
theorem claim_C7_jump_zero_pure :
    ∀ (fs : FS) (c : ImageCache),
      ImageCache.load_jump fs c 0 =
        ((match tcLookup c.current_name c.loader.texture_cache with
          | some (CachedTexture.Texture _ tex) => Except.ok (tex, c.current_name)
          | some CachedTexture.LoadRequested => Except.error CErr.notInCache
          | none => Except.error CErr.notInCache), c) := by
  intro fs c
  unfold ImageCache.load_jump
  cases h : tcLookup c.current_name c.loader.texture_cache with
  | none => simp [h]
  | some v => cases v <;> simp [h]

/-! ## C9 — the cursor moves only on success -/

/-- The shared result wrapper keeps the cursor on an error and sets it
to the returned name on success. -/
theorem nav_wrap_cursor (c : ImageCache) (r : Except CErr (Tex × String) × TextureLoader) :
    match (nav_wrap c r).1 with
    | Except.ok v => (nav_wrap c r).2.current_name = v.2
    | Except.error _ => (nav_wrap c r).2.current_name = c.current_name := by
  obtain ⟨x, l⟩ := r
  cases x with
  | ok v => simp [nav_wrap]
  | error e => simp [nav_wrap]

/-- C9: whenever `load_next`, `load_prev` or `load_jump` returns an
error the cursor is unchanged, and on success the cursor equals the
returned file's name. -/
theorem claim_C9_cursor_on_error :
    ∀ (fs : FS) (c : ImageCache) (j : Int),
      (match (ImageCache.load_next fs c).1 with
       | Except.ok v => (ImageCache.load_next fs c).2.current_name = v.2
       | Except.error _ => (ImageCache.load_next fs c).2.current_name = c.current_name) ∧
      (match (ImageCache.load_prev fs c).1 with
       | Except.ok v => (ImageCache.load_prev fs c).2.current_name = v.2
       | Except.error _ => (ImageCache.load_prev fs c).2.current_name = c.current_name) ∧
      (match (ImageCache.load_jump fs c j).1 with
       | Except.ok v => (ImageCache.load_jump fs c j).2.current_name = v.2
       | Except.error _ => (ImageCache.load_jump fs c j).2.current_name = c.current_name) := by
  intro fs c j
  refine ⟨nav_wrap_cursor c _, nav_wrap_cursor c _, ?_⟩
  by_cases hj : j = 0
  · subst hj
    cases h : tcLookup c.current_name c.loader.texture_cache with
    | none => simp [ImageCache.load_jump, h]
    | some v => cases v <;> simp [ImageCache.load_jump, h]
  · simp only [ImageCache.load_jump, if_neg hj]
    exact nav_wrap_cursor c _

/-! ## C1 — the eviction pass CAN remove entries at or after the cursor -/

/-- C1 failing input: directory `[a.png, b.png, c.png]`, cache holding
only `c.png` (directory position 2), loading `b.png` (cursor position 1)
with a budget too small for its estimate.  The eviction pass compares
the entry's index within the filtered list of cached entries (0 for
`c.png`) with the cursor's directory index (1), so it evicts `c.png`
even though its directory position 2 is at-or-after the cursor —
contradicting the claim (and §4.2/§8.3 of the spec). -/
theorem claim_C1_eviction_bug :
    tcLookup cPngS sHoldsC.texture_cache = some (CachedTexture.Texture 0 ⟨77, 100, 100⟩) ∧
    List.findIdx? (fun f => f.name == cPngS) dirABC = some 2 ∧
    List.findIdx? (fun f => f.name == bPngS) dirABC = some 1 ∧
    (∃ tex, (load_specific fsOnlyB sHoldsC bPngS dirABC).1 = Except.ok tex) ∧
    tcLookup cPngS (load_specific fsOnlyB sHoldsC bPngS dirABC).2.texture_cache = none := by
  refine ⟨by decide, by decide, by decide, ⟨⟨0, 10, 10⟩, by rfl⟩, by decide⟩

/-! ## C2 — counterexample to the claimed budget bound -/

/-- C2 counterexample: budget 10, directory `[a.png, b.png]`, both
decoding to 10 by 10 images (estimate 600 each).  Load `b.png`, then
`a.png`: the eviction pass protects `b.png` (its filtered position 0 is
not before the cursor position 0), so after the second completed
operation the sum of `Loaded` estimates is 1200, exceeding budget plus
one admission's estimate (10 + 600), and `remaining_capacity` is -1190,
below minus one in-flight admission. -/
theorem claim_C2_counterexample :
    loaded_sum (run_ops [CacheOp.loadSpec fsAB bPngS dirAB, CacheOp.loadSpec fsAB aPngS dirAB]
        (TextureLoader.init 10)).texture_cache = 1200 ∧
    (run_ops [CacheOp.loadSpec fsAB bPngS dirAB, CacheOp.loadSpec fsAB aPngS dirAB]
        (TextureLoader.init 10)).remaining_capacity = -1190 ∧
    no_panic_run [CacheOp.loadSpec fsAB bPngS dirAB, CacheOp.loadSpec fsAB aPngS dirAB]
        (TextureLoader.init 10) = true ∧
    (10 : Int) + (get_image_size_estimate 10 10 : Int) < 1200 := by
  refine ⟨by decide, by decide, by decide, by decide⟩

/-! ## C3 — counterexample to the skip count -/

/-- C3 counterexample: directory `[a.png, b.png, c.png]`, all decodable,
cursor `a.png`.  The claim says `load_jump 1` skips `|1| - 1 = 0`
supported candidates and loads the next one, `b.png`; the code skips one
and loads `c.png`. -/
theorem claim_C3_counterexample :
    result_name (ImageCache.load_jump fsABC ⟨aPngS, dirABC, TextureLoader.init 1000000⟩ 1).1 =
      some cPngS ∧
    some cPngS ≠ some bPngS := by
  refine ⟨by decide, by decide⟩

/-! ## C4 — counterexample to unsupported-files-keep-their-slot -/

/-- C4 counterexample: cursor `cur.png`, then `t.txt` (unsupported) and
four supported uncached files `a.png .. d.png`, with a budget projection
allowing far more than 4 candidates.  If an unsupported candidate kept
its slot, four requests (`a..d`) would be enqueued; the code spends a
slot on `t.txt` and enqueues only three. -/
theorem claim_C4_counterexample :
    is_file_supported entT.ext = false ∧
    supported_file entD = true ∧
    (send_load_requests fsABC { TextureLoader.init 10000 with curr_est_size := 100 }
        [entCur, entT, entA, entB, entC, entD] curPngS).2.pending = [aPngS, bPngS, cPngS] := by
  refine ⟨by decide, by decide, by decide⟩

/-! ## Association-list (HashMap) lemmas -/

theorem tcLookup_insert_self (p : String) (v : CachedTexture)
    (m : List (String × CachedTexture)) : tcLookup p (tcInsert p v m) = some v := by
  induction m with
  | nil => simp [tcInsert, tcLookup]
  | cons kv rest ih =>
    obtain ⟨q, w⟩ := kv
    by_cases h : q = p
    · simp [tcInsert, tcLookup, h]
    · simp [tcInsert, tcLookup, h, ih]

theorem tcLookup_insert_ne (p q : String) (v : CachedTexture)
    (m : List (String × CachedTexture)) (hq : q ≠ p) :
    tcLookup q (tcInsert p v m) = tcLookup q m := by
  have hpq : ¬p = q := fun h => hq h.symm
  induction m with
  | nil => simp [tcInsert, tcLookup, hpq]
  | cons kv rest ih =>
    obtain ⟨k, w⟩ := kv
    by_cases h : k = p
    · subst h
      simp only [tcInsert, if_pos rfl, tcLookup, if_neg hpq]
    · simp only [tcInsert, if_neg h, tcLookup]
      by_cases h2 : k = q
      · rw [if_pos h2, if_pos h2]
      · rw [if_neg h2, if_neg h2, ih]

theorem tcLookup_erase_ne (p q : String) (m : List (String × CachedTexture))
    (hq : q ≠ p) : tcLookup q (tcErase p m) = tcLookup q m := by
  have hpq : ¬p = q := fun h => hq h.symm
  induction m with
  | nil => simp [tcErase]
  | cons kv rest ih =>
    obtain ⟨k, w⟩ := kv
    by_cases h : k = p
    · subst h
      simp [tcErase, tcLookup, hpq]
    · simp only [tcErase, if_neg h, tcLookup]
      by_cases h2 : k = q
      · rw [if_pos h2, if_pos h2]
      · rw [if_neg h2, if_neg h2, ih]

theorem tcErase_sublist (p : String) (m : List (String × CachedTexture)) :
    (tcErase p m).Sublist m := by
  induction m with
  | nil => simp [tcErase]
  | cons kv rest ih =>
    obtain ⟨k, w⟩ := kv
    by_cases h : k = p
    · simp only [tcErase, if_pos h]
      exact List.sublist_cons_self _ _
    · simp only [tcErase, if_neg h]
      exact ih.cons₂ _

theorem keysNodup_erase (p : String) (m : List (String × CachedTexture))
    (h : KeysNodup m) : KeysNodup (tcErase p m) :=
  ((tcErase_sublist p m).map Prod.fst).nodup h

theorem mem_keys_insert (a p : String) (v : CachedTexture)
    (m : List (String × CachedTexture)) :
    a ∈ (tcInsert p v m).map Prod.fst → a = p ∨ a ∈ m.map Prod.fst := by
  induction m with
  | nil => simp [tcInsert]
  | cons kv rest ih =>
    obtain ⟨k, w⟩ := kv
    by_cases h : k = p
    · subst h
      simp [tcInsert]
    · simp only [tcInsert, if_neg h, List.map_cons, List.mem_cons]
      rintro (rfl | hmem)
      · right; simp
      · rcases ih hmem with h1 | h1
        · exact Or.inl h1
        · right; simp [h1]

theorem keysNodup_insert (p : String) (v : CachedTexture)
    (m : List (String × CachedTexture)) (h : KeysNodup m) :
    KeysNodup (tcInsert p v m) := by
  induction m with
  | nil => simp [tcInsert, KeysNodup]
  | cons kv rest ih =>
    obtain ⟨k, w⟩ := kv
    unfold KeysNodup at h
    simp only [List.map_cons, List.nodup_cons] at h
    by_cases hk : k = p
    · unfold KeysNodup
      simpa [tcInsert, hk, List.nodup_cons] using h
    · unfold KeysNodup
      simp only [tcInsert, if_neg hk, List.map_cons, List.nodup_cons]
      refine ⟨?_, ih h.2⟩
      intro hmem
      rcases mem_keys_insert k p v rest hmem with rfl | h1
      · exact hk rfl
      · exact h.1 h1

theorem tcLookup_erase_self (p : String) (m : List (String × CachedTexture))
    (h : KeysNodup m) : tcLookup p (tcErase p m) = none := by
  induction m with
  | nil => simp [tcErase, tcLookup]
  | cons kv rest ih =>
    obtain ⟨k, w⟩ := kv
    unfold KeysNodup at h
    simp only [List.map_cons, List.nodup_cons] at h
    by_cases hk : k = p
    · subst hk
      simp only [tcErase, if_pos rfl]
      -- k is not a key of rest, so the lookup misses
      clear ih
      induction rest with
      | nil => simp [tcLookup]
      | cons kv2 rest2 ih2 =>
        obtain ⟨k2, w2⟩ := kv2
        simp only [List.map_cons, List.mem_cons, List.nodup_cons] at h
        by_cases h2 : k2 = k
        · exact absurd (Or.inl h2.symm) (fun hh => h.1 hh)
        · simp only [tcLookup, if_neg h2]
          exact ih2 ⟨fun hh => h.1 (Or.inr hh), h.2.2⟩
    · simp only [tcErase, if_neg hk, tcLookup, if_neg hk]
      exact ih h.2

/-! ## Loaded-estimate sum lemmas -/

theorem loaded_sum_cons (kv : String × CachedTexture)
    (m : List (String × CachedTexture)) :
    loaded_sum (kv :: m) = entry_estimate kv.2 + loaded_sum m := by
  simp [loaded_sum]

theorem loaded_sum_insert (p : String) (v : CachedTexture)
    (m : List (String × CachedTexture)) :
    loaded_sum (tcInsert p v m) =
      loaded_sum m + entry_estimate v -
        (match tcLookup p m with
         | some w => entry_estimate w
         | none => 0) := by
  induction m with
  | nil => simp [tcInsert, tcLookup, loaded_sum]
  | cons kv rest ih =>
    obtain ⟨k, w⟩ := kv
    by_cases h : k = p
    · simp only [tcInsert, if_pos h, tcLookup, if_pos h, loaded_sum_cons]
      ring
    · simp only [tcInsert, if_neg h, tcLookup, if_neg h, loaded_sum_cons, ih]
      cases htc : tcLookup p rest <;> ring

theorem loaded_sum_erase (p : String) (m : List (String × CachedTexture)) :
    loaded_sum (tcErase p m) =
      loaded_sum m -
        (match tcLookup p m with
         | some w => entry_estimate w
         | none => 0) := by
  induction m with
  | nil => simp [tcErase, tcLookup, loaded_sum]
  | cons kv rest ih =>
    obtain ⟨k, w⟩ := kv
    by_cases h : k = p
    · simp only [tcErase, if_pos h, tcLookup, if_pos h, loaded_sum_cons]
      ring
    · simp only [tcErase, if_neg h, tcLookup, if_neg h, loaded_sum_cons, ih]
      cases htc : tcLookup p rest <;> ring

/-! ## The budget accounting total, operation by operation -/

theorem texture_from_image_ok (fs : FS) (im : Image) (h : fs.texOk im = true) :
    ∀ s : TextureLoader,
      texture_from_image fs s im =
        Except.ok (⟨s.tex_counter, im.width, im.height⟩,
          { s with tex_counter := s.tex_counter + 1 }) := by
  intro s
  unfold texture_from_image
  rw [h]
  simp

theorem texture_from_image_fail (fs : FS) (im : Image) (h : fs.texOk im = false) :
    ∀ s : TextureLoader, texture_from_image fs s im = Except.error CErr.texCreate := by
  intro s
  unfold texture_from_image
  rw [h]
  simp

theorem acct_of_fields (s s2 : TextureLoader)
    (hcap : s2.remaining_capacity = s.remaining_capacity)
    (hcache : s2.texture_cache = s.texture_cache) : acct s2 = acct s := by
  unfold acct
  rw [hcap, hcache]

theorem process_one_acct (fs : FS) (s s2 : TextureLoader) (r : Response)
    (h : process_one fs s r = Except.ok s2) : acct s2 = acct s := by
  unfold acct
  unfold process_one at h
  cases htc : tcLookup r.path s.texture_cache with
  | none => rw [htc] at h; exact absurd h (by simp)
  | some v =>
    cases v with
    | Texture t old_tex =>
      rw [htc] at h
      simp only at h
      by_cases hlt : t < r.modified
      · rw [if_pos hlt] at h
        cases hok : fs.texOk r.img with
        | false =>
          rw [texture_from_image_fail fs r.img hok] at h
          simp at h
        | true =>
          rw [texture_from_image_ok fs r.img hok] at h
          simp only at h
          cases h
          simp only [loaded_sum_insert, htc, entry_estimate]
          omega
      · rw [if_neg hlt] at h
        cases h
        rfl
    | LoadRequested =>
      rw [htc] at h
      simp only at h
      cases hok : fs.texOk r.img with
      | false =>
        rw [texture_from_image_fail fs r.img hok] at h
        simp at h
      | true =>
        rw [texture_from_image_ok fs r.img hok] at h
        simp only at h
        cases h
        simp only [loaded_sum_insert, htc, entry_estimate]
        omega

theorem drain_go_acct (fs : FS) :
    ∀ (rs : List Response) (s : TextureLoader), acct (drain_go fs s rs).2 = acct s := by
  intro rs
  induction rs with
  | nil => intro s; rfl
  | cons r rest ih =>
    intro s
    unfold drain_go
    cases h : process_one fs s r with
    | error e =>
      simp only
      exact acct_of_fields _ _ rfl rfl
    | ok s1 => rw [ih s1, process_one_acct fs s s1 r h]

theorem process_prefetched_acct (fs : FS) (s : TextureLoader) :
    acct (process_prefetched fs s).2 = acct s := by
  unfold process_prefetched
  rw [drain_go_acct fs s.incoming _]
  exact acct_of_fields _ _ rfl rfl

theorem evict_pass_acc (need : Int) (current_pos : Nat) :
    ∀ (l : List (Nat × DirEntryM)) (cache : List (String × CachedTexture)) (cap : Int),
      (evict_pass need current_pos l cache cap).2 +
        loaded_sum (evict_pass need current_pos l cache cap).1 = cap + loaded_sum cache := by
  intro l
  induction l with
  | nil => intro cache cap; simp [evict_pass]
  | cons pf rest ih =>
    intro cache cap
    obtain ⟨file_pos, f⟩ := pf
    unfold evict_pass
    by_cases hc : cap < need ∧ file_pos < current_pos
    · rw [if_pos hc]
      cases htc : tcLookup f.name cache with
      | none => simpa using ih cache cap
      | some v =>
        cases v with
        | Texture t tex =>
          simp only
          rw [ih]
          rw [loaded_sum_erase, htc]
          simp only [entry_estimate]
          ring
        | LoadRequested => simpa using ih cache cap
    · rw [if_neg hc]

theorem evicted_state_acct (need : Int) (p : String) (d : List DirEntryM)
    (s2 : TextureLoader) : acct (evicted_state s2 need p d) = acct s2 := by
  unfold acct evicted_state
  split
  · simp only
    rw [evict_pass_acc]
  · rfl

theorem admit_image_acct_eq (fs : FS) (s1 : TextureLoader) (p : String)
    (d : List DirEntryM) (mtime : Nat) (image : Image)
    (h : (admit_image fs s1 p d mtime image).1 ≠ Except.error CErr.panicked)
    (h2 : (admit_image fs s1 p d mtime image).1 ≠ Except.error CErr.texCreate) :
    acct (admit_image fs s1 p d mtime image).2 = acct s1 := by
  unfold admit_image admit_upload at h h2 ⊢
  set S3 := evicted_state
      { s1 with curr_est_size := get_image_size_estimate image.width image.height }
      (get_image_size_estimate image.width image.height) p d with hS3
  have hb3 : acct S3 = acct s1 := by
    rw [hS3, evicted_state_acct]
    exact acct_of_fields _ _ rfl rfl
  cases hok : fs.texOk image with
  | false =>
    rw [texture_from_image_fail fs image hok] at h2
    simp at h2
  | true =>
    rw [texture_from_image_ok fs image hok] at h ⊢
    unfold admit_finish at h ⊢
    simp only [sub_need] at h ⊢
    cases htc : tcLookup p S3.texture_cache with
    | none =>
      simp only [htc] at h ⊢
      unfold acct at hb3 ⊢
      simp only
      rw [loaded_sum_insert, htc]
      simp only [entry_estimate]
      omega
    | some v =>
      cases v with
      | LoadRequested =>
        simp only [htc] at h ⊢
        unfold acct at hb3 ⊢
        simp only
        rw [loaded_sum_insert, htc]
        simp only [entry_estimate]
        omega
      | Texture t tex =>
        simp only [htc] at h
        simp at h

theorem admit_image_acct_le (fs : FS) (s1 : TextureLoader) (p : String)
    (d : List DirEntryM) (mtime : Nat) (image : Image) :
    acct (admit_image fs s1 p d mtime image).2 ≤ acct s1 := by
  unfold admit_image admit_upload
  set S3 := evicted_state
      { s1 with curr_est_size := get_image_size_estimate image.width image.height }
      (get_image_size_estimate image.width image.height) p d with hS3
  have hb3 : acct S3 = acct s1 := by
    rw [hS3, evicted_state_acct]
    exact acct_of_fields _ _ rfl rfl
  have hnn : (0 : Int) ≤ (get_image_size_estimate image.width image.height : Int) :=
    Int.natCast_nonneg _
  cases hok : fs.texOk image with
  | false =>
    rw [texture_from_image_fail fs image hok]
    unfold acct at hb3 ⊢
    simp only [sub_need]
    omega
  | true =>
    rw [texture_from_image_ok fs image hok]
    unfold admit_finish
    simp only [sub_need]
    cases htc : tcLookup p S3.texture_cache with
    | none =>
      simp only [htc]
      unfold acct at hb3 ⊢
      simp only
      rw [loaded_sum_insert, htc]
      simp only [entry_estimate]
      omega
    | some v =>
      cases v with
      | LoadRequested =>
        simp only [htc]
        unfold acct at hb3 ⊢
        simp only
        rw [loaded_sum_insert, htc]
        simp only [entry_estimate]
        omega
      | Texture t tex =>
        simp only [htc]
        unfold acct at hb3 ⊢
        simp only
        omega

theorem load_fresh_acct_eq (fs : FS) (s1 : TextureLoader) (p : String)
    (d : List DirEntryM) (mtime : Nat)
    (h : (load_fresh fs s1 p d mtime).1 ≠ Except.error CErr.panicked)
    (h2 : (load_fresh fs s1 p d mtime).1 ≠ Except.error CErr.texCreate) :
    acct (load_fresh fs s1 p d mtime).2 = acct s1 := by
  unfold load_fresh at h h2 ⊢
  cases him : fs.img p with
  | none => rfl
  | some image =>
    rw [him] at h h2
    exact admit_image_acct_eq fs s1 p d mtime image h h2

theorem load_fresh_acct_le (fs : FS) (s1 : TextureLoader) (p : String)
    (d : List DirEntryM) (mtime : Nat) :
    acct (load_fresh fs s1 p d mtime).2 ≤ acct s1 := by
  unfold load_fresh
  cases him : fs.img p with
  | none => exact le_refl _
  | some image => exact admit_image_acct_le fs s1 p d mtime image

theorem load_specific_acct_eq (fs : FS) (s : TextureLoader) (p : String)
    (d : List DirEntryM)
    (h : (load_specific fs s p d).1 ≠ Except.error CErr.panicked)
    (h2 : (load_specific fs s p d).1 ≠ Except.error CErr.texCreate) :
    acct (load_specific fs s p d).2 = acct s := by
  unfold load_specific at h h2 ⊢
  cases hm : fs.meta p with
  | none => rfl
  | some mtime =>
    simp only
    cases hpp : process_prefetched fs s with
    | mk r1 s1 =>
      have hb1 : acct s1 = acct s := by
        have := process_prefetched_acct fs s
        rw [hpp] at this
        exact this
      cases r1 with
      | error e => simp only; exact hb1
      | ok u =>
        simp only
        rw [hm, hpp] at h h2
        simp only at h h2
        cases htc : tcLookup p s1.texture_cache with
        | none =>
          rw [htc] at h h2
          rw [load_fresh_acct_eq fs s1 p d mtime h h2]
          exact hb1
        | some v =>
          cases v with
          | Texture t tex =>
            rw [htc] at h h2
            by_cases ht : t = mtime
            · simp only [if_pos ht] at h h2 ⊢
              exact hb1
            · simp only [if_neg ht] at h h2 ⊢
              rw [load_fresh_acct_eq fs s1 p d mtime h h2]
              exact hb1
          | LoadRequested =>
            rw [htc] at h h2
            rw [load_fresh_acct_eq fs s1 p d mtime h h2]
            exact hb1

theorem load_specific_acct_le (fs : FS) (s : TextureLoader) (p : String)
    (d : List DirEntryM) : acct (load_specific fs s p d).2 ≤ acct s := by
  unfold load_specific
  cases hm : fs.meta p with
  | none => exact le_refl _
  | some mtime =>
    simp only
    cases hpp : process_prefetched fs s with
    | mk r1 s1 =>
      have hb1 : acct s1 = acct s := by
        have := process_prefetched_acct fs s
        rw [hpp] at this
        exact this
      cases r1 with
      | error e => simp only; exact le_of_eq hb1
      | ok u =>
        simp only
        cases htc : tcLookup p s1.texture_cache with
        | none =>
          calc acct (load_fresh fs s1 p d mtime).2 ≤ acct s1 :=
                load_fresh_acct_le fs s1 p d mtime
            _ = acct s := hb1
        | some v =>
          cases v with
          | Texture t tex =>
            by_cases ht : t = mtime
            · simp only [if_pos ht]
              exact le_of_eq hb1
            · simp only [if_neg ht]
              calc acct (load_fresh fs s1 p d mtime).2 ≤ acct s1 :=
                    load_fresh_acct_le fs s1 p d mtime
                _ = acct s := hb1
          | LoadRequested =>
            calc acct (load_fresh fs s1 p d mtime).2 ≤ acct s1 :=
                  load_fresh_acct_le fs s1 p d mtime
              _ = acct s := hb1

theorem send_step_acct (fs : FS) (s s2 : TextureLoader) (f : DirEntryM)
    (h : send_step fs s f = Except.ok s2) : acct s2 = acct s := by
  unfold acct
  unfold send_step at h
  cases htc : tcLookup f.name s.texture_cache with
  | none =>
    rw [htc] at h
    simp only at h
    by_cases hsupp : is_file_supported f.ext
    · rw [if_pos hsupp] at h
      cases h
      simp only
      rw [loaded_sum_insert, htc]
      simp only [entry_estimate]
      omega
    · rw [if_neg hsupp] at h
      cases h
      rfl
  | some v =>
    cases v with
    | Texture t tex =>
      rw [htc] at h
      simp only at h
      cases hm : fs.meta f.name with
      | none => simp [hm] at h
      | some m =>
        simp only [hm] at h
        by_cases hne : t ≠ m
        · rw [if_pos hne] at h
          cases h
          rfl
        · rw [if_neg hne] at h
          cases h
          rfl
    | LoadRequested =>
      rw [htc] at h
      cases h
      rfl

theorem send_go_acct (fs : FS) (curr_est : Nat) :
    ∀ (rest : List DirEntryM) (s : TextureLoader) (cap : Int) (requested : Nat),
      acct (send_go fs curr_est rest s cap requested).2 = acct s := by
  intro rest
  induction rest with
  | nil =>
    intro s cap requested
    unfold send_go
    by_cases hc : cap > (curr_est : Int) <;> simp [hc]
  | cons f rest2 ih =>
    intro s cap requested
    unfold send_go
    by_cases hc : cap > (curr_est : Int)
    · rw [if_pos hc]
      simp only
      cases hstep : send_step fs s f with
      | error e => rfl
      | ok s1 =>
        have hb1 := send_step_acct fs s s1 f hstep
        by_cases hfull : requested + 1 ≥ MAX_BULK_PREFETCH_REQUEST
        · simp only [if_pos hfull]
          exact hb1
        · simp only [if_neg hfull]
          rw [ih s1 _ _]
          exact hb1
    · rw [if_neg hc]

theorem send_load_requests_acct (fs : FS) (s : TextureLoader)
    (d : List DirEntryM) (cur : String) :
    acct (send_load_requests fs s d cur).2 = acct s :=
  send_go_acct fs s.curr_est_size _ s s.remaining_capacity 0

theorem run_op_acct_eq (op : CacheOp) (s : TextureLoader)
    (h : is_abnormal (run_op op s).1 = false) : acct (run_op op s).2 = acct s := by
  cases op with
  | loadSpec fs p d =>
    refine load_specific_acct_eq fs s p d ?_ ?_
    · intro hcontra
      unfold run_op at h
      simp only [hcontra] at h
      simp [Except.map, is_abnormal] at h
    · intro hcontra
      unfold run_op at h
      simp only [hcontra] at h
      simp [Except.map, is_abnormal] at h
  | drainOp fs => exact process_prefetched_acct fs s
  | sendRequests fs d cur => exact send_load_requests_acct fs s d cur
  | deliver r => exact acct_of_fields _ _ rfl rfl

theorem run_op_acct_le (op : CacheOp) (s : TextureLoader) :
    acct (run_op op s).2 ≤ acct s := by
  cases op with
  | loadSpec fs p d => exact load_specific_acct_le fs s p d
  | drainOp fs => exact le_of_eq (process_prefetched_acct fs s)
  | sendRequests fs d cur => exact le_of_eq (send_load_requests_acct fs s d cur)
  | deliver r => exact le_of_eq (acct_of_fields _ _ rfl rfl)

theorem run_ops_acct_le :
    ∀ (ops : List CacheOp) (s : TextureLoader), acct (run_ops ops s) ≤ acct s := by
  intro ops
  induction ops with
  | nil => intro s; exact le_refl _
  | cons op rest ih =>
    intro s
    unfold run_ops
    exact le_trans (ih (run_op op s).2) (run_op_acct_le op s)

theorem run_ops_acct_eq :
    ∀ (ops : List CacheOp) (s : TextureLoader),
      clean_run ops s = true → acct (run_ops ops s) = acct s := by
  intro ops
  induction ops with
  | nil => intro s _; rfl
  | cons op rest ih =>
    intro s hcl
    unfold clean_run at hcl
    rw [Bool.and_eq_true] at hcl
    unfold run_ops
    rw [ih _ hcl.2]
    refine run_op_acct_eq op s ?_
    cases hh : is_abnormal (run_op op s).1
    · rfl
    · rw [hh] at hcl
      exact absurd hcl.1 (by simp)

/-! ## Path lemmas for load_specific with an empty response queue -/

theorem pp_empty (fs : FS) (s : TextureLoader) (h : s.incoming = []) :
    process_prefetched fs s = (Except.ok (), s) := by
  cases s
  simp_all [process_prefetched, drain_go]

theorem load_specific_empty (fs : FS) (s : TextureLoader) (p : String)
    (d : List DirEntryM) (h : s.incoming = []) :
    load_specific fs s p d =
      match fs.meta p with
      | none => (Except.error CErr.ioError, s)
      | some mtime =>
        match tcLookup p s.texture_cache with
        | some (CachedTexture.Texture t tex) =>
          if t = mtime then (Except.ok tex, s) else load_fresh fs s p d mtime
        | _ => load_fresh fs s p d mtime := by
  unfold load_specific
  rw [pp_empty fs s h]

theorem evicted_state_incoming (s2 : TextureLoader) (need : Int) (p : String)
    (d : List DirEntryM) : (evicted_state s2 need p d).incoming = s2.incoming := by
  unfold evicted_state
  split <;> rfl

theorem evicted_state_pending (s2 : TextureLoader) (need : Int) (p : String)
    (d : List DirEntryM) : (evicted_state s2 need p d).pending = s2.pending := by
  unfold evicted_state
  split <;> rfl

/-- Cache hit: a `Loaded` entry whose stored modification time equals
the file's current one is returned as-is, with the state untouched. -/
theorem load_specific_hit (fs : FS) (s : TextureLoader) (p : String)
    (d : List DirEntryM) (t : Nat) (tex : Tex) (h : s.incoming = [])
    (htc : tcLookup p s.texture_cache = some (CachedTexture.Texture t tex))
    (hm : fs.meta p = some t) :
    load_specific fs s p d = (Except.ok tex, s) := by
  rw [load_specific_empty fs s p d h]
  simp [hm, htc]

/-- Decode failure: when the file stats but does not decode and the
table has no modification-time-matching `Texture` entry for it,
`load_specific` fails with the image-load error and leaves the state
exactly unchanged. -/
theorem load_specific_imgLoad (fs : FS) (s : TextureLoader) (p : String)
    (d : List DirEntryM) (t : Nat) (h : s.incoming = [])
    (hm : fs.meta p = some t) (him : fs.img p = none)
    (htex : ∀ tex0, tcLookup p s.texture_cache ≠ some (CachedTexture.Texture t tex0)) :
    load_specific fs s p d = (Except.error CErr.imgLoad, s) := by
  rw [load_specific_empty fs s p d h]
  simp only [hm]
  have hfresh : load_fresh fs s p d t = (Except.error CErr.imgLoad, s) := by
    unfold load_fresh
    simp only [him]
  cases htc : tcLookup p s.texture_cache with
  | none => simpa using hfresh
  | some v =>
    cases v with
    | LoadRequested => simpa using hfresh
    | Texture t0 tex0 =>
      simp only
      have : ¬t0 = t := by
        intro hcontra
        subst hcontra
        exact htex tex0 htc
      rw [if_neg this]
      exact hfresh

/-- Admission either hits the defensive `unreachable!()`, fails the
texture upload after the budget was already charged, or succeeds and
leaves the admitted `Texture` entry, at the file's modification time,
holding exactly the returned handle; the response and request queues are
untouched. -/
theorem admit_image_result (fs : FS) (s1 : TextureLoader) (p : String) (d : List DirEntryM)
    (mtime : Nat) (image : Image) :
    (admit_image fs s1 p d mtime image).1 = Except.error CErr.panicked ∨
    (admit_image fs s1 p d mtime image).1 = Except.error CErr.texCreate ∨
    ∃ tex s2, admit_image fs s1 p d mtime image = (Except.ok tex, s2) ∧
      tcLookup p s2.texture_cache = some (CachedTexture.Texture mtime tex) ∧
      s2.incoming = s1.incoming ∧ s2.pending = s1.pending := by
  unfold admit_image admit_upload admit_finish
  cases hok : fs.texOk image with
  | false =>
    rw [texture_from_image_fail fs image hok]
    right; left; rfl
  | true =>
    rw [texture_from_image_ok fs image hok]
    simp only [sub_need]
    cases htc : tcLookup p (evicted_state
        { s1 with curr_est_size := get_image_size_estimate image.width image.height }
        (get_image_size_estimate image.width image.height) p d).texture_cache with
    | none =>
      right; right
      simp only [htc]
      refine ⟨_, _, rfl, ?_, ?_, ?_⟩
      · exact tcLookup_insert_self p _ _
      · simp [evicted_state_incoming]
      · simp [evicted_state_pending]
    | some v =>
      cases v with
      | LoadRequested =>
        right; right
        simp only [htc]
        refine ⟨_, _, rfl, ?_, ?_, ?_⟩
        · exact tcLookup_insert_self p _ _
        · simp [evicted_state_incoming]
        · simp [evicted_state_pending]
      | Texture t tex =>
        left
        simp [htc]

/-- The upload-failure outcome happens exactly when the renderer rejects
the decoded image. -/
theorem admit_image_texCreate_inv (fs : FS) (s1 : TextureLoader) (p : String)
    (d : List DirEntryM) (mtime : Nat) (image : Image)
    (h : (admit_image fs s1 p d mtime image).1 = Except.error CErr.texCreate) :
    fs.texOk image = false := by
  cases hok : fs.texOk image with
  | false => rfl
  | true =>
    exfalso
    unfold admit_image admit_upload admit_finish at h
    rw [texture_from_image_ok fs image hok] at h
    simp only [sub_need] at h
    cases htc : tcLookup p (evicted_state
        { s1 with curr_est_size := get_image_size_estimate image.width image.height }
        (get_image_size_estimate image.width image.height) p d).texture_cache with
    | none => simp [htc] at h
    | some v =>
      cases v with
      | LoadRequested => simp [htc] at h
      | Texture t2 tex2 => simp [htc] at h

/-- Inversion of a successful `load_specific`: the file stats, the table
afterwards holds a `Texture` entry for the path at the current
modification time carrying exactly the returned handle, and the response
queue is still empty. -/
theorem load_specific_ok_cache (fs : FS) (s : TextureLoader) (p : String)
    (d : List DirEntryM) (tex : Tex) (s1 : TextureLoader) (h : s.incoming = [])
    (hok : load_specific fs s p d = (Except.ok tex, s1)) :
    ∃ m, fs.meta p = some m ∧
      tcLookup p s1.texture_cache = some (CachedTexture.Texture m tex) ∧
      s1.incoming = [] := by
  rw [load_specific_empty fs s p d h] at hok
  cases hm : fs.meta p with
  | none => simp [hm] at hok
  | some m =>
    simp only [hm] at hok
    refine ⟨m, rfl, ?_⟩
    have hfresh : ∀ hcall : load_fresh fs s p d m = (Except.ok tex, s1),
        tcLookup p s1.texture_cache = some (CachedTexture.Texture m tex) ∧
          s1.incoming = [] := by
      intro hcall
      unfold load_fresh at hcall
      cases him : fs.img p with
      | none => simp [him] at hcall
      | some image =>
        simp only [him] at hcall
        rcases admit_image_result fs s p d m image with
          hpan | htcx | ⟨tex2, s2, heq, hlook, hinc, _⟩
        · rw [hcall] at hpan
          exact absurd hpan (by simp)
        · rw [hcall] at htcx
          exact absurd htcx (by simp)
        · have heq2 : ((Except.ok tex2 : Except CErr Tex), s2) = (Except.ok tex, s1) :=
            heq.symm.trans hcall
          have h1 : Except.ok tex2 = (Except.ok tex : Except CErr Tex) :=
            congrArg Prod.fst heq2
          have h2 : s2 = s1 := congrArg Prod.snd heq2
          injection h1 with h1x
          subst h1x
          subst h2
          exact ⟨hlook, by rw [hinc, h]⟩
    cases htc : tcLookup p s.texture_cache with
    | none =>
      simp only [htc] at hok
      exact hfresh hok
    | some v =>
      cases v with
      | LoadRequested =>
        simp only [htc] at hok
        exact hfresh hok
      | Texture t0 tex0 =>
        simp only [htc] at hok
        by_cases ht : t0 = m
        · rw [if_pos ht] at hok
          obtain ⟨h1, h2⟩ : Except.ok tex0 = Except.ok tex ∧ s = s1 := by
            constructor
            · exact congrArg Prod.fst hok
            · exact congrArg Prod.snd hok
          cases h1
          cases h2
          subst ht
          exact ⟨htc, h⟩
        · rw [if_neg ht] at hok
          exact hfresh hok

/-! ## Eviction lookup lemmas: the eviction pass only removes entries -/

theorem evict_pass_nodup (need : Int) (cp : Nat) :
    ∀ (l : List (Nat × DirEntryM)) (cache : List (String × CachedTexture)) (cap : Int),
      KeysNodup cache → KeysNodup (evict_pass need cp l cache cap).1 := by
  intro l
  induction l with
  | nil => intro cache cap h; exact h
  | cons pf rest ih =>
    intro cache cap h
    obtain ⟨file_pos, f⟩ := pf
    unfold evict_pass
    by_cases hc : cap < need ∧ file_pos < cp
    · rw [if_pos hc]
      cases htc : tcLookup f.name cache with
      | none => exact ih cache cap h
      | some v =>
        cases v with
        | Texture t tex => exact ih _ _ (keysNodup_erase f.name cache h)
        | LoadRequested => exact ih cache cap h
    · rw [if_neg hc]
      exact h

theorem evict_pass_lookup (need : Int) (cp : Nat) :
    ∀ (l : List (Nat × DirEntryM)) (cache : List (String × CachedTexture)) (cap : Int)
      (q : String), KeysNodup cache →
      tcLookup q (evict_pass need cp l cache cap).1 = tcLookup q cache ∨
      tcLookup q (evict_pass need cp l cache cap).1 = none := by
  intro l
  induction l with
  | nil => intro cache cap q _; left; rfl
  | cons pf rest ih =>
    intro cache cap q h
    obtain ⟨file_pos, f⟩ := pf
    unfold evict_pass
    by_cases hc : cap < need ∧ file_pos < cp
    · rw [if_pos hc]
      cases htc : tcLookup f.name cache with
      | none => exact ih cache cap q h
      | some v =>
        cases v with
        | LoadRequested => exact ih cache cap q h
        | Texture t tex =>
          simp only
          have hnd2 := keysNodup_erase f.name cache h
          rcases ih (tcErase f.name cache) _ q hnd2 with heq | hnone
          · by_cases hq : q = f.name
            · subst hq
              rw [tcLookup_erase_self f.name cache h] at heq
              right; exact heq
            · rw [tcLookup_erase_ne f.name q cache hq] at heq
              left; exact heq
          · right; exact hnone
    · rw [if_neg hc]
      left; rfl

theorem evicted_state_nodup (s2 : TextureLoader) (need : Int) (p : String)
    (d : List DirEntryM) (h : KeysNodup s2.texture_cache) :
    KeysNodup (evicted_state s2 need p d).texture_cache := by
  unfold evicted_state
  split
  · exact evict_pass_nodup _ _ _ _ _ h
  · exact h

theorem evicted_state_lookup (s2 : TextureLoader) (need : Int) (p : String)
    (d : List DirEntryM) (q : String) (h : KeysNodup s2.texture_cache) :
    tcLookup q (evicted_state s2 need p d).texture_cache = tcLookup q s2.texture_cache ∨
    tcLookup q (evicted_state s2 need p d).texture_cache = none := by
  unfold evicted_state
  split
  · exact evict_pass_lookup _ _ _ _ _ q h
  · left; rfl

/-- The admission tail panics exactly when a `Texture` entry for the
path survives into the post-eviction table. -/
theorem admit_image_panicked_inv (fs : FS) (s1 : TextureLoader) (p : String)
    (d : List DirEntryM) (mtime : Nat) (image : Image)
    (h : (admit_image fs s1 p d mtime image).1 = Except.error CErr.panicked) :
    ∃ t2 tex2,
      tcLookup p (evicted_state
        { s1 with curr_est_size := get_image_size_estimate image.width image.height }
        (get_image_size_estimate image.width image.height) p d).texture_cache =
      some (CachedTexture.Texture t2 tex2) := by
  unfold admit_image admit_upload admit_finish at h
  cases hok : fs.texOk image with
  | false =>
    rw [texture_from_image_fail fs image hok] at h
    simp at h
  | true =>
    rw [texture_from_image_ok fs image hok] at h
    simp only [sub_need] at h
    cases htc : tcLookup p (evicted_state
        { s1 with curr_est_size := get_image_size_estimate image.width image.height }
        (get_image_size_estimate image.width image.height) p d).texture_cache with
    | none => simp [htc] at h
    | some v =>
      cases v with
      | LoadRequested => simp [htc] at h
      | Texture t2 tex2 => exact ⟨t2, tex2, rfl⟩

/-- Inversion of the image-load failure: the state is exactly unchanged,
the file stats but does not decode. -/
theorem load_specific_imgLoad_inv (fs : FS) (s : TextureLoader) (p : String)
    (d : List DirEntryM) (s1 : TextureLoader) (hinc : s.incoming = [])
    (h : load_specific fs s p d = (Except.error CErr.imgLoad, s1)) :
    s1 = s ∧ fs.img p = none ∧ ∃ t, fs.meta p = some t := by
  rw [load_specific_empty fs s p d hinc] at h
  cases hm : fs.meta p with
  | none => simp [hm] at h
  | some m =>
    simp only [hm] at h
    have hfresh : load_fresh fs s p d m = (Except.error CErr.imgLoad, s1) →
        s1 = s ∧ fs.img p = none := by
      intro hcall
      unfold load_fresh at hcall
      cases him : fs.img p with
      | some image =>
        simp only [him] at hcall
        rcases admit_image_result fs s p d m image with
          hpan | htcx | ⟨tex2, s2, heq, _, _, _⟩
        · rw [hcall] at hpan
          simp at hpan
        · rw [hcall] at htcx
          simp at htcx
        · rw [heq] at hcall
          simp at hcall
      | none =>
        simp only [him] at hcall
        have h1 : s = s1 := congrArg Prod.snd hcall
        exact ⟨h1.symm, rfl⟩
    cases htc : tcLookup p s.texture_cache with
    | none =>
      simp only [htc] at h
      obtain ⟨h1, h2⟩ := hfresh h
      exact ⟨h1, h2, m, rfl⟩
    | some v =>
      cases v with
      | LoadRequested =>
        simp only [htc] at h
        obtain ⟨h1, h2⟩ := hfresh h
        exact ⟨h1, h2, m, rfl⟩
      | Texture t0 tex0 =>
        simp only [htc] at h
        by_cases ht : t0 = m
        · rw [if_pos ht] at h
          simp at h
        · rw [if_neg ht] at h
          obtain ⟨h1, h2⟩ := hfresh h
          exact ⟨h1, h2, m, rfl⟩

/-- On a consistent, duplicate-free cache with an empty response queue,
`load_specific` on a file that stats, decodes and uploads always
succeeds (cache hit or fresh admission; the defensive panic is
unreachable). -/
theorem load_specific_ok_strong (fs : FS) (s : TextureLoader) (p : String)
    (d : List DirEntryM) (t : Nat) (im : Image)
    (hinc : s.incoming = []) (hkn : KeysNodup s.texture_cache)
    (hcc : CacheConsistent fs s)
    (hm : fs.meta p = some t) (him : fs.img p = some im)
    (hup : fs.texOk im = true) :
    ∃ tex s1, load_specific fs s p d = (Except.ok tex, s1) := by
  rw [load_specific_empty fs s p d hinc]
  simp only [hm]
  have hfresh : (∀ t2 tex2, tcLookup p s.texture_cache ≠
      some (CachedTexture.Texture t2 tex2)) →
      ∃ tex s1, load_fresh fs s p d t = (Except.ok tex, s1) := by
    intro hnotex
    unfold load_fresh
    simp only [him]
    rcases admit_image_result fs s p d t im with hpan | htcx | ⟨tex2, s2, heq, _, _, _⟩
    · exfalso
      obtain ⟨t2, tex2, hlook⟩ := admit_image_panicked_inv fs s p d t im hpan
      rcases evicted_state_lookup
          { s with curr_est_size := get_image_size_estimate im.width im.height }
          (get_image_size_estimate im.width im.height) p d p hkn with heq2 | hnone
      · rw [heq2] at hlook
        exact hnotex t2 tex2 hlook
      · rw [hnone] at hlook
        exact absurd hlook (by simp)
    · exfalso
      have hfalse := admit_image_texCreate_inv fs s p d t im htcx
      rw [hup] at hfalse
      exact Bool.noConfusion hfalse
    · exact ⟨tex2, s2, heq⟩
  cases htc : tcLookup p s.texture_cache with
  | none =>
    simp only [htc]
    exact hfresh (by intro t2 tex2 hcontra; rw [htc] at hcontra; exact absurd hcontra (by simp))
  | some v =>
    cases v with
    | LoadRequested =>
      simp only [htc]
      exact hfresh (by intro t2 tex2 hcontra; rw [htc] at hcontra; exact absurd hcontra (by simp))
    | Texture t0 tex0 =>
      simp only [htc]
      have := hcc p t0 tex0 htc
      rw [hm] at this
      have ht0 : t0 = t := by
        injection this with hx
        exact hx.symm
      rw [if_pos ht0]
      exact ⟨tex0, s, rfl⟩

/-- State relation of one `load_specific` call, for any outcome: the
response queue stays empty, keys stay duplicate-free, every entry other
than the loaded path is either untouched or removed (eviction), and
cache-filesystem consistency is preserved. -/
theorem load_specific_state (fs : FS) (s : TextureLoader) (p : String)
    (d : List DirEntryM) (hinc : s.incoming = []) (hkn : KeysNodup s.texture_cache) :
    (load_specific fs s p d).2.incoming = [] ∧
    KeysNodup (load_specific fs s p d).2.texture_cache ∧
    (∀ q, q ≠ p →
      tcLookup q (load_specific fs s p d).2.texture_cache = tcLookup q s.texture_cache ∨
      tcLookup q (load_specific fs s p d).2.texture_cache = none) ∧
    (CacheConsistent fs s → CacheConsistent fs (load_specific fs s p d).2) := by
  rw [load_specific_empty fs s p d hinc]
  cases hm : fs.meta p with
  | none =>
    exact ⟨hinc, hkn, fun q _ => Or.inl rfl, fun hcc => hcc⟩
  | some m =>
    simp only
    have hfresh : (load_fresh fs s p d m).2.incoming = [] ∧
        KeysNodup (load_fresh fs s p d m).2.texture_cache ∧
        (∀ q, q ≠ p →
          tcLookup q (load_fresh fs s p d m).2.texture_cache = tcLookup q s.texture_cache ∨
          tcLookup q (load_fresh fs s p d m).2.texture_cache = none) ∧
        (CacheConsistent fs s → CacheConsistent fs (load_fresh fs s p d m).2) := by
      unfold load_fresh
      cases him : fs.img p with
      | none => exact ⟨hinc, hkn, fun q _ => Or.inl rfl, fun hcc => hcc⟩
      | some image =>
        simp only
        unfold admit_image admit_upload admit_finish
        have hknE := evicted_state_nodup
          { s with curr_est_size := get_image_size_estimate image.width image.height }
          (get_image_size_estimate image.width image.height) p d hkn
        have hlookE := fun q => evicted_state_lookup
          { s with curr_est_size := get_image_size_estimate image.width image.height }
          (get_image_size_estimate image.width image.height) p d q hkn
        have hincE := evicted_state_incoming
          { s with curr_est_size := get_image_size_estimate image.width image.height }
          (get_image_size_estimate image.width image.height) p d
        cases hok : fs.texOk image with
        | false =>
          rw [texture_from_image_fail fs image hok]
          simp only [sub_need]
          refine ⟨by simpa using hincE.trans hinc, hknE, fun q _ => hlookE q, ?_⟩
          intro hcc q t3 tex3 hl
          rcases hlookE q with heq | hnone
          · rw [heq] at hl
            exact hcc q t3 tex3 hl
          · rw [hnone] at hl
            exact absurd hl (by simp)
        | true =>
          rw [texture_from_image_ok fs image hok]
          simp only [sub_need]
          cases htc : tcLookup p (evicted_state
              { s with curr_est_size := get_image_size_estimate image.width image.height }
              (get_image_size_estimate image.width image.height) p d).texture_cache with
          | some v =>
            cases v with
            | Texture t2 tex2 =>
              simp only [htc]
              refine ⟨by simpa using hincE.trans hinc, hknE, fun q _ => hlookE q, ?_⟩
              intro hcc q t3 tex3 hl
              rcases hlookE q with heq | hnone
              · rw [heq] at hl
                exact hcc q t3 tex3 hl
              · rw [hnone] at hl
                exact absurd hl (by simp)
            | LoadRequested =>
              simp only [htc]
              refine ⟨by simpa using hincE.trans hinc, ?_, ?_, ?_⟩
              · exact keysNodup_insert p _ _ hknE
              · intro q hq
                rw [tcLookup_insert_ne p q _ _ hq]
                exact hlookE q
              · intro hcc q t3 tex3 hl
                by_cases hq : q = p
                · subst hq
                  rw [tcLookup_insert_self] at hl
                  injection hl with hx
                  cases hx
                  exact hm
                · rw [tcLookup_insert_ne p q _ _ hq] at hl
                  rcases hlookE q with heq | hnone
                  · rw [heq] at hl
                    exact hcc q t3 tex3 hl
                  · rw [hnone] at hl
                    exact absurd hl (by simp)
          | none =>
            simp only [htc]
            refine ⟨by simpa using hincE.trans hinc, ?_, ?_, ?_⟩
            · exact keysNodup_insert p _ _ hknE
            · intro q hq
              rw [tcLookup_insert_ne p q _ _ hq]
              exact hlookE q
            · intro hcc q t3 tex3 hl
              by_cases hq : q = p
              · subst hq
                rw [tcLookup_insert_self] at hl
                injection hl with hx
                cases hx
                exact hm
              · rw [tcLookup_insert_ne p q _ _ hq] at hl
                rcases hlookE q with heq | hnone
                · rw [heq] at hl
                  exact hcc q t3 tex3 hl
                · rw [hnone] at hl
                  exact absurd hl (by simp)
    cases htc : tcLookup p s.texture_cache with
    | none => exact hfresh
    | some v =>
      cases v with
      | LoadRequested => exact hfresh
      | Texture t0 tex0 =>
        simp only
        by_cases ht : t0 = m
        · rw [if_pos ht]
          exact ⟨hinc, hkn, fun q _ => Or.inl rfl, fun hcc => hcc⟩
        · rw [if_neg ht]
          exact hfresh

/-! ## Scan-step equations and scan inversion -/

theorem next_scan_cons_nonfile (fs : FS) (d : List DirEntryM) (f : DirEntryM)
    (rest : List DirEntryM) (s : TextureLoader) (hf : f.isFile = false) :
    next_scan fs d (f :: rest) s = next_scan fs d rest s := by
  conv_lhs => unfold next_scan
  simp [hf]

theorem next_scan_cons_ok (fs : FS) (d : List DirEntryM) (f : DirEntryM)
    (rest : List DirEntryM) (s s1 : TextureLoader) (tex : Tex) (hf : f.isFile = true)
    (hls : load_specific fs s f.name d = (Except.ok tex, s1)) :
    next_scan fs d (f :: rest) s = (Except.ok (tex, f.name), s1) := by
  conv_lhs => unfold next_scan
  simp [hf, hls]

theorem next_scan_cons_skip (fs : FS) (d : List DirEntryM) (f : DirEntryM)
    (rest : List DirEntryM) (s s1 : TextureLoader) (hf : f.isFile = true)
    (hls : load_specific fs s f.name d = (Except.error CErr.imgLoad, s1)) :
    next_scan fs d (f :: rest) s = next_scan fs d rest s1 := by
  conv_lhs => unfold next_scan
  simp [hf, hls]

theorem next_scan_cons_abort (fs : FS) (d : List DirEntryM) (f : DirEntryM)
    (rest : List DirEntryM) (s s1 : TextureLoader) (e : CErr) (hf : f.isFile = true)
    (hls : load_specific fs s f.name d = (Except.error e, s1)) (hne : e ≠ CErr.imgLoad) :
    next_scan fs d (f :: rest) s = (Except.error e, s1) := by
  conv_lhs => unfold next_scan
  simp [hf, hls, hne]

theorem next_scan_skip_front (fs : FS) (d : List DirEntryM) :
    ∀ (pre l : List DirEntryM) (s : TextureLoader),
      (∀ g ∈ pre, g.isFile = true → load_specific fs s g.name d = (Except.error CErr.imgLoad, s)) →
      next_scan fs d (pre ++ l) s = next_scan fs d l s := by
  intro pre
  induction pre with
  | nil => intro l s _; rfl
  | cons g pre2 ih =>
    intro l s hskip
    rw [List.cons_append]
    by_cases hg : g.isFile = true
    · rw [next_scan_cons_skip fs d g (pre2 ++ l) s s hg
        (hskip g (List.mem_cons_self g pre2) hg)]
      exact ih l s (fun g2 hg2 => hskip g2 (List.mem_cons_of_mem g hg2))
    · rw [Bool.not_eq_true] at hg
      rw [next_scan_cons_nonfile fs d g (pre2 ++ l) s hg]
      exact ih l s (fun g2 hg2 => hskip g2 (List.mem_cons_of_mem g hg2))

theorem next_scan_ok_inv (fs : FS) (d : List DirEntryM) :
    ∀ (l : List DirEntryM) (s : TextureLoader) (tex : Tex) (nm : String)
      (s1 : TextureLoader),
      s.incoming = [] →
      next_scan fs d l s = (Except.ok (tex, nm), s1) →
      ∃ pre f post, l = pre ++ f :: post ∧ f.isFile = true ∧ f.name = nm ∧
        (∀ g ∈ pre, g.isFile = true →
          load_specific fs s g.name d = (Except.error CErr.imgLoad, s)) ∧
        load_specific fs s f.name d = (Except.ok tex, s1) := by
  intro l
  induction l with
  | nil =>
    intro s tex nm s1 _ h
    exact absurd h (by simp [next_scan])
  | cons f rest ih =>
    intro s tex nm s1 hinc h
    by_cases hf : f.isFile = true
    · cases hls : load_specific fs s f.name d with
      | mk r1 sx =>
        cases r1 with
        | ok tex2 =>
          rw [next_scan_cons_ok fs d f rest s sx tex2 hf hls] at h
          simp only [Prod.mk.injEq, Except.ok.injEq] at h
          obtain ⟨⟨htex, hnm⟩, hsx⟩ := h
          subst htex
          subst hsx
          exact ⟨[], f, rest, rfl, hf, hnm, by simp, hls⟩
        | error e =>
          by_cases he : e = CErr.imgLoad
          · subst he
            have hsx : sx = s :=
              (load_specific_imgLoad_inv fs s f.name d sx hinc hls).1
            rw [hsx] at hls
            rw [next_scan_cons_skip fs d f rest s s hf hls] at h
            obtain ⟨pre, f2, post, hsplit, hf2, hnm2, hskips, hload⟩ :=
              ih s tex nm s1 hinc h
            refine ⟨f :: pre, f2, post, by rw [hsplit, List.cons_append], hf2, hnm2, ?_, hload⟩
            intro g hg hgf
            rcases List.mem_cons.mp hg with rfl | hg2
            · exact hls
            · exact hskips g hg2 hgf
          · rw [next_scan_cons_abort fs d f rest s sx e hf hls he] at h
            exact absurd h (by simp)
    · rw [Bool.not_eq_true] at hf
      rw [next_scan_cons_nonfile fs d f rest s hf] at h
      obtain ⟨pre, f2, post, hsplit, hf2, hnm2, hskips, hload⟩ :=
        ih s tex nm s1 hinc h
      refine ⟨f :: pre, f2, post, by rw [hsplit, List.cons_append], hf2, hnm2, ?_, hload⟩
      intro g hg hgf
      rcases List.mem_cons.mp hg with rfl | hg2
      · rw [hf] at hgf
        exact absurd hgf (by simp)
      · exact hskips g hg2 hgf

/-! ## Cursor location lemmas -/

theorem findCurrent_cons_hit (nm : String) (e : DirEntryM) (rest : List DirEntryM)
    (hf : e.isFile = true) (hn : e.name = nm) :
    findCurrent nm (e :: rest) = some rest := by
  unfold findCurrent
  simp [hf, hn]

theorem findCurrent_append_no (nm : String) :
    ∀ (p l : List DirEntryM),
      (∀ g ∈ p, ¬(g.isFile = true ∧ g.name = nm)) →
      findCurrent nm (p ++ l) = findCurrent nm l := by
  intro p
  induction p with
  | nil => intro l _; rfl
  | cons g p2 ih =>
    intro l hno
    rw [List.cons_append]
    conv_lhs => unfold findCurrent
    have hng := hno g (List.mem_cons_self g p2)
    have : (g.isFile && g.name == nm) = false := by
      rw [Bool.and_eq_false_iff]
      by_cases hgf : g.isFile = true
      · right
        rw [beq_eq_false_iff_ne]
        intro hcontra
        exact hng ⟨hgf, hcontra⟩
      · left
        rwa [Bool.not_eq_true] at hgf
    rw [this]
    simp only [Bool.false_eq_true, if_neg (by simp : ¬False)]
    exact ih l (fun g2 hg2 => hno g2 (List.mem_cons_of_mem g hg2))

theorem findCurrent_inv (nm : String) :
    ∀ (l rest : List DirEntryM),
      findCurrent nm l = some rest →
      ∃ p e, l = p ++ e :: rest ∧ e.isFile = true ∧ e.name = nm ∧
        ∀ g ∈ p, ¬(g.isFile = true ∧ g.name = nm) := by
  intro l
  induction l with
  | nil => intro rest h; exact absurd h (by simp [findCurrent])
  | cons f l2 ih =>
    intro rest h
    unfold findCurrent at h
    by_cases hc : (f.isFile && f.name == nm) = true
    · rw [if_pos hc] at h
      rw [Bool.and_eq_true, beq_iff_eq] at hc
      injection h with hrest
      exact ⟨[], f, by rw [hrest]; rfl, hc.1, hc.2, by simp⟩
    · rw [if_neg (by simpa using hc)] at h
      obtain ⟨p, e, hsplit, hef, hen, hno⟩ := ih rest h
      refine ⟨f :: p, e, by rw [hsplit, List.cons_append], hef, hen, ?_⟩
      intro g hg
      rcases List.mem_cons.mp hg with rfl | hg2
      · intro hcontra
        rw [Bool.and_eq_true, beq_iff_eq] at hc
        exact hc ⟨hcontra.1, hcontra.2⟩
      · exact hno g hg2

/-! ## Generic list-splitting lemmas -/

theorem split_lt {α : Type} :
    ∀ (p : List α) (xs ys : List α) (e : α) (rest : List α),
      xs ++ ys = p ++ e :: rest → p.length < xs.length →
      ∃ q, xs = p ++ e :: q ∧ rest = q ++ ys := by
  intro p
  induction p with
  | nil =>
    intro xs ys e rest heq hlen
    cases xs with
    | nil => simp at hlen
    | cons x xs2 =>
      rw [List.cons_append, List.nil_append] at heq
      injection heq with h1 h2
      subst h1
      exact ⟨xs2, rfl, h2.symm⟩
  | cons a p2 ih =>
    intro xs ys e rest heq hlen
    cases xs with
    | nil => simp at hlen
    | cons x xs2 =>
      rw [List.cons_append, List.cons_append] at heq
      injection heq with h1 h2
      subst h1
      obtain ⟨q, hq1, hq2⟩ := ih xs2 ys e rest h2 (by simpa using hlen)
      exact ⟨q, by rw [List.cons_append, hq1], hq2⟩

theorem split_ge {α : Type} :
    ∀ (xs : List α) (p ys : List α) (e : α) (rest : List α),
      xs ++ ys = p ++ e :: rest → xs.length ≤ p.length →
      ∃ p2, p = xs ++ p2 ∧ ys = p2 ++ e :: rest := by
  intro xs
  induction xs with
  | nil =>
    intro p ys e rest heq _
    exact ⟨p, rfl, by simpa using heq⟩
  | cons x xs2 ih =>
    intro p ys e rest heq hlen
    cases p with
    | nil => simp at hlen
    | cons a p2 =>
      rw [List.cons_append, List.cons_append] at heq
      injection heq with h1 h2
      subst h1
      obtain ⟨p3, hp1, hp2⟩ := ih p2 ys e rest h2 (by simpa using hlen)
      exact ⟨p3, by rw [List.cons_append, hp1], hp2⟩

theorem mem_of_short_side {α : Type} (xs p ys : List α) (e : α) (rest : List α)
    (heq : xs ++ ys = p ++ e :: rest) (hlen : xs.length ≤ p.length) :
    ∀ g ∈ xs, g ∈ p := by
  obtain ⟨p2, hp1, _⟩ := split_ge xs p ys e rest heq hlen
  intro g hg
  rw [hp1]
  exact List.mem_append_left p2 hg

/-- Locating the first index-hit inside a doubled list: the prefix lies
within the first copy. -/
theorem split_first_hit (L : List DirEntryM) (nm : String) (p1 : List DirEntryM)
    (e : DirEntryM) (rest : List DirEntryM)
    (heq : L ++ L = p1 ++ e :: rest)
    (hno : ∀ g ∈ p1, ¬(g.isFile = true ∧ g.name = nm))
    (hef : e.isFile = true) (hen : e.name = nm) :
    ∃ Q, L = p1 ++ e :: Q ∧ rest = Q ++ L := by
  by_cases hlen : p1.length < L.length
  · exact split_lt p1 L L e rest heq hlen
  · exfalso
    have hmem : e ∈ L := by
      have : e ∈ L ++ L := by
        rw [heq]
        exact List.mem_append_right p1 (List.mem_cons_self e rest)
      rcases List.mem_append.mp this with h1 | h1 <;> exact h1
    have : e ∈ p1 :=
      mem_of_short_side L p1 L e rest heq (by omega) e hmem
    exact hno e this ⟨hef, hen⟩

/-- In a name-nodup index, the parts around an entry carry different
names. -/
theorem names_nodup_decomp (L X Y : List DirEntryM) (e : DirEntryM)
    (hnd : (names_of L).Nodup) (hsplit : L = X ++ e :: Y) :
    (∀ g ∈ X, g.name ≠ e.name) ∧ (∀ g ∈ Y, g.name ≠ e.name) := by
  subst hsplit
  unfold names_of at hnd
  rw [List.map_append, List.map_cons] at hnd
  have hnotmem : e.name ∉ (X.map fun f => f.name) ++ (Y.map fun f => f.name) := by
    have := List.nodup_middle.mp hnd
    rw [List.nodup_cons] at this
    exact this.1
  rw [List.mem_append] at hnotmem
  constructor
  · intro g hg hcontra
    exact hnotmem (Or.inl (by rw [← hcontra]; exact List.mem_map_of_mem _ hg))
  · intro g hg hcontra
    exact hnotmem (Or.inr (by rw [← hcontra]; exact List.mem_map_of_mem _ hg))

theorem nav_wrap_ok (c : ImageCache) (r : Except CErr (Tex × String) × TextureLoader)
    (v : Tex × String) (hr : r.1 = Except.ok v) :
    nav_wrap c r = (Except.ok v, { c with loader := r.2, current_name := v.2 }) := by
  obtain ⟨x, l⟩ := r
  simp only at hr
  subst hr
  rfl

/-! ## C5 — exact-match cache hits and idempotent repeats -/

/-- C5: with no pending background responses, (a) a `Loaded` entry whose
stored modification time equals the file's current one is returned
directly — same shared handle, state byte-for-byte unchanged, so no
decode, upload or budget motion happens — and (b) after any successful
`load_specific` a repeated call on the same (unchanged) file returns the
very same texture handle and changes nothing. -/
theorem claim_C5_cache_hit_idempotent :
    ∀ (fs : FS) (s : TextureLoader) (p : String) (d : List DirEntryM),
      s.incoming = [] →
      (∀ t tex, tcLookup p s.texture_cache = some (CachedTexture.Texture t tex) →
        fs.meta p = some t → load_specific fs s p d = (Except.ok tex, s)) ∧
      (∀ tex s1, load_specific fs s p d = (Except.ok tex, s1) →
        load_specific fs s1 p d = (Except.ok tex, s1)) := by
  intro fs s p d h
  constructor
  · intro t tex htc hm
    exact load_specific_hit fs s p d t tex h htc hm
  · intro tex s1 hok
    obtain ⟨m, hm, hlook, hinc⟩ := load_specific_ok_cache fs s p d tex s1 h hok
    exact load_specific_hit fs s1 p d m tex hinc hlook hm

/-- Witness for C5 at a concrete state: a loader holding `b.png` as a
`Loaded` entry matching the filesystem returns that very handle and, a
successful fresh load of `b.png` from an empty cache, repeated, returns
the same handle both times. -/
theorem claim_C5_cache_hit_idempotent_witness :
    sHoldsB.incoming = [] ∧
    tcLookup bPngS sHoldsB.texture_cache =
      some (CachedTexture.Texture 1 ⟨9, 10, 10⟩) ∧
    fsOnlyB.meta bPngS = some 1 ∧
    load_specific fsOnlyB sHoldsB bPngS dirABC = (Except.ok ⟨9, 10, 10⟩, sHoldsB) ∧
    load_specific fsOnlyB (TextureLoader.init 100000) bPngS dirABC =
      (Except.ok ⟨0, 10, 10⟩, sAfterB) ∧
    load_specific fsOnlyB sAfterB bPngS dirABC = (Except.ok ⟨0, 10, 10⟩, sAfterB) :=
  ⟨rfl, by decide, by decide,
   (claim_C5_cache_hit_idempotent fsOnlyB sHoldsB bPngS dirABC rfl).1 1 ⟨9, 10, 10⟩
     (by decide) (by decide),
   by decide,
   (claim_C5_cache_hit_idempotent fsOnlyB (TextureLoader.init 100000) bPngS dirABC rfl).2
     ⟨0, 10, 10⟩ sAfterB (by decide)⟩

/-! ## C6 — error policy of the sequential scans -/

theorem nav_wrap_fst (c : ImageCache) (r : Except CErr (Tex × String) × TextureLoader) :
    (nav_wrap c r).1 = r.1 := by
  obtain ⟨x, l⟩ := r
  cases x <;> simp [nav_wrap]

/-- C6: during the sequential scan of `load_next`/`load_prev`
(`load_iter_next`), (a) a candidate failing with the decode-format error
is skipped and the scan continues; (b) any other error aborts the scan
and is returned; (c) never locating the cursor yields the
could-not-find-current error, and (d) so does exhausting the doubled
sequence after the cursor without any successful load; (e,f) `load_next`
and `load_prev` surface exactly the scan's result. -/
theorem claim_C6_scan_error_policy :
    (∀ (fs : FS) (d : List DirEntryM) (f : DirEntryM) (rest : List DirEntryM)
       (s s1 : TextureLoader),
       f.isFile = true →
       load_specific fs s f.name d = (Except.error CErr.imgLoad, s1) →
       next_scan fs d (f :: rest) s = next_scan fs d rest s1) ∧
    (∀ (fs : FS) (d : List DirEntryM) (f : DirEntryM) (rest : List DirEntryM)
       (s s1 : TextureLoader) (e : CErr),
       f.isFile = true →
       load_specific fs s f.name d = (Except.error e, s1) →
       e ≠ CErr.imgLoad →
       next_scan fs d (f :: rest) s = (Except.error e, s1)) ∧
    (∀ (fs : FS) (s : TextureLoader) (tw d : List DirEntryM) (cur : String),
       findCurrent cur tw = none →
       load_iter_next fs s tw d cur = (Except.error CErr.currentNotFound, s)) ∧
    (∀ (fs : FS) (d : List DirEntryM) (s : TextureLoader),
       next_scan fs d [] s = (Except.error CErr.currentNotFound, s)) ∧
    (∀ (fs : FS) (c : ImageCache),
       (ImageCache.load_next fs c).1 =
         (load_iter_next fs c.loader (c.dir_files ++ c.dir_files) c.dir_files c.current_name).1) ∧
    (∀ (fs : FS) (c : ImageCache),
       (ImageCache.load_prev fs c).1 =
         (load_iter_next fs c.loader ((c.dir_files ++ c.dir_files).reverse)
           c.dir_files c.current_name).1) := by
  refine ⟨?_, ?_, ?_, ?_, ?_, ?_⟩
  · intro fs d f rest s s1 hf hls
    conv_lhs => unfold next_scan
    rw [hf]
    simp [hls]
  · intro fs d f rest s s1 e hf hls hne
    conv_lhs => unfold next_scan
    rw [hf]
    simp [hls, hne]
  · intro fs s tw d cur hfc
    unfold load_iter_next
    rw [hfc]
  · intro fs d s
    rfl
  · intro fs c
    exact nav_wrap_fst c _
  · intro fs c
    exact nav_wrap_fst c _

/-- Witness for C6 at concrete inputs: on a filesystem where `a.png`
stats but does not decode, the scan skips it and continues (reaching the
exhaustion error), while an absent file's io error aborts the scan; a
cursor that is not in the index errors. -/
theorem claim_C6_scan_error_policy_witness :
    next_scan fsMetaNoImg dirAB [entA] (TextureLoader.init 50) =
      (Except.error CErr.currentNotFound, TextureLoader.init 50) ∧
    next_scan fsMetaNoImg dirAB [entC, entA] (TextureLoader.init 50) =
      (Except.error CErr.ioError, TextureLoader.init 50) ∧
    load_iter_next fsMetaNoImg (TextureLoader.init 50) dirAB dirAB cPngS =
      (Except.error CErr.currentNotFound, TextureLoader.init 50) := by
  refine ⟨?_, ?_, ?_⟩
  · have h1 := (claim_C6_scan_error_policy.1) fsMetaNoImg dirAB entA []
      (TextureLoader.init 50) (TextureLoader.init 50) (by decide) (by decide)
    rw [h1]
    exact claim_C6_scan_error_policy.2.2.2.1 fsMetaNoImg dirAB (TextureLoader.init 50)
  · exact (claim_C6_scan_error_policy.2.1) fsMetaNoImg dirAB entC [entA]
      (TextureLoader.init 50) (TextureLoader.init 50) CErr.ioError (by decide) (by decide)
      (by decide)
  · exact claim_C6_scan_error_policy.2.2.1 fsMetaNoImg (TextureLoader.init 50) dirAB dirAB
      cPngS (by decide)

/-! ## C4 — at most four candidates, hence at most four requests -/

theorem send_step_pending (fs : FS) (s s1 : TextureLoader) (f : DirEntryM)
    (h : send_step fs s f = Except.ok s1) :
    s1.pending.length ≤ s.pending.length + 1 := by
  unfold send_step at h
  cases htc : tcLookup f.name s.texture_cache with
  | none =>
    rw [htc] at h
    simp only at h
    by_cases hsupp : is_file_supported f.ext
    · rw [if_pos hsupp] at h
      cases h
      simp
    · rw [if_neg hsupp] at h
      cases h
      simp
  | some v =>
    cases v with
    | Texture t tex =>
      rw [htc] at h
      simp only at h
      cases hm : fs.meta f.name with
      | none => simp [hm] at h
      | some m =>
        simp only [hm] at h
        by_cases hne : t ≠ m
        · rw [if_pos hne] at h
          cases h
          simp
        · rw [if_neg hne] at h
          cases h
          simp
    | LoadRequested =>
      rw [htc] at h
      cases h
      simp

theorem send_go_pending (fs : FS) (curr_est : Nat) :
    ∀ (rest : List DirEntryM) (s : TextureLoader) (cap : Int) (requested : Nat),
      requested < MAX_BULK_PREFETCH_REQUEST →
      (send_go fs curr_est rest s cap requested).2.pending.length ≤
        s.pending.length + (MAX_BULK_PREFETCH_REQUEST - requested) := by
  intro rest
  induction rest with
  | nil =>
    intro s cap requested hreq
    unfold send_go
    by_cases hc : cap > (curr_est : Int) <;> simp [hc]
  | cons f rest2 ih =>
    intro s cap requested hreq
    unfold send_go
    by_cases hc : cap > (curr_est : Int)
    · rw [if_pos hc]
      simp only
      cases hstep : send_step fs s f with
      | error e => simp
      | ok s1 =>
        have hlen := send_step_pending fs s s1 f hstep
        by_cases hfull : requested + 1 ≥ MAX_BULK_PREFETCH_REQUEST
        · simp only [if_pos hfull]
          omega
        · simp only [if_neg hfull]
          have := ih s1 (cap - (curr_est : Int)) (requested + 1) (by omega)
          omega
    · rw [if_neg hc]
      simp

/-- C4 (amended): one `send_load_requests` call enqueues at most
`MAX_BULK_PREFETCH_REQUEST = 4` decode requests — every examined
candidate, supported or not, consumes one of the 4 slots (the original
claim that unsupported candidates keep their slot is refuted by
`claim_C4_counterexample`), and the loop stops early once the projected
budget drops to or below the typical-size estimate. -/
theorem claim_C4_amended_at_most_four :
    ∀ (fs : FS) (s : TextureLoader) (d : List DirEntryM) (cur : String),
      (send_load_requests fs s d cur).2.pending.length ≤
        s.pending.length + MAX_BULK_PREFETCH_REQUEST := by
  intro fs s d cur
  have := send_go_pending fs s.curr_est_size (drop_through cur d) s s.remaining_capacity 0
    (by decide)
  simpa using this

/-! ## C3 — the nonzero jump refined to skip-exactly-natAbs -/

theorem jump_scan_eq (fs : FS) (d : List DirEntryM) :
    ∀ (l : List DirEntryM) (s : TextureLoader) (n : Nat),
      jump_scan fs d l s n =
        match (l.filter supported_file).get? n with
        | none => (Except.error CErr.jumpFailed, s)
        | some f =>
          match load_specific fs s f.name d with
          | (Except.ok tex, s1) => (Except.ok (tex, f.name), s1)
          | (Except.error e, s1) =>
            if e = CErr.imgLoad then (Except.error CErr.shouldBeSupported, s1)
            else (Except.error e, s1) := by
  intro l
  induction l with
  | nil => intro s n; rfl
  | cons f rest ih =>
    intro s n
    by_cases hsf : supported_file f = true
    · have hboth := hsf
      unfold supported_file at hboth
      rw [Bool.and_eq_true] at hboth
      conv_lhs => unfold jump_scan
      cases n with
      | zero => simp [hboth.1, hboth.2, List.filter_cons_of_pos hsf]
      | succ m =>
        have hne : ¬(m + 1 = 0) := by omega
        simp [hboth.1, hboth.2, hne, List.filter_cons_of_pos hsf, ih s m]
    · have hrec : jump_scan fs d (f :: rest) s n = jump_scan fs d rest s n := by
        conv_lhs => unfold jump_scan
        unfold supported_file at hsf
        rw [Bool.and_eq_true] at hsf
        by_cases hf : f.isFile = true
        · rw [hf]
          have hsupp : ¬is_file_supported f.ext = true := fun hh => hsf ⟨hf, hh⟩
          simp [hsupp]
        · rw [Bool.not_eq_true] at hf
          rw [hf]
          simp
      rw [hrec, ih s n, List.filter_cons_of_neg (by simpa using hsf)]

/-- C3 (amended): for every nonzero `jump_count`, `load_jump` equals the
specification that locates the cursor in the doubled (reversed when
negative) sequence, skips exactly `|jump_count|` supported plain-file
candidates, and attempts `load_specific` on the next one — the
`|jump_count|`-indexed entry of the filtered candidate list — whose name
becomes the cursor on success.  (The original skip count of
`|jump_count| - 1` is refuted by `claim_C3_counterexample`.) -/
theorem claim_C3_amended_jump_skips :
    ∀ (fs : FS) (c : ImageCache) (j : Int), j ≠ 0 →
      ImageCache.load_jump fs c j = jump_spec fs c j := by
  intro fs c j hj
  unfold ImageCache.load_jump jump_spec
  rw [if_neg hj]
  unfold load_iter_jump
  cases hfc : findCurrent c.current_name
      (if j < 0 then (c.dir_files ++ c.dir_files).reverse else c.dir_files ++ c.dir_files) with
  | none =>
    simp only [hfc, nav_wrap]
  | some rest =>
    simp only [hfc]
    rw [jump_scan_eq]
    cases hget : (rest.filter supported_file).get? j.natAbs with
    | none =>
      simp only [hget, nav_wrap]
    | some f =>
      simp only
      cases hls : load_specific fs c.loader f.name c.dir_files with
      | mk r1 s1 =>
        cases r1 with
        | ok tex => simp [nav_wrap]
        | error e =>
          by_cases he : e = CErr.imgLoad
          · simp [nav_wrap, he]
          · simp [nav_wrap, he]

/-- Witness for the amended C3 at the counterexample input: cursor
`a.png` in `[a.png, b.png, c.png]` with `jump_count = 1`. -/
theorem claim_C3_amended_jump_skips_witness :
    (1 : Int) ≠ 0 ∧
    ImageCache.load_jump fsABC ⟨aPngS, dirABC, TextureLoader.init 1000000⟩ 1 =
      jump_spec fsABC ⟨aPngS, dirABC, TextureLoader.init 1000000⟩ 1 :=
  ⟨by decide,
   claim_C3_amended_jump_skips fsABC ⟨aPngS, dirABC, TextureLoader.init 1000000⟩ 1 (by decide)⟩

/-! ## C8 — load_next then load_prev round-trips -/

/-- C8 (amended): in a directory index with pairwise-distinct file
names, starting from a duplicate-free cache consistent with an
unmutating filesystem and an empty response queue, if `load_next`
succeeds in moving the cursor from file A to file B, both A and B stat
and decode, and the renderer accepts A's decoded image, then
`load_prev` from the resulting state succeeds and returns the cursor
to A.  (Without the upload-success hypothesis the round-trip fails:
see `claim_C8_counterexample`, where A's upload raises
`TextureCreationError` and `load_prev` aborts.) -/
theorem claim_C8_next_prev_roundtrip :
    ∀ (fs : FS) (c : ImageCache) (texB : Tex) (nmB : String),
      (names_of c.dir_files).Nodup →
      KeysNodup c.loader.texture_cache →
      CacheConsistent fs c.loader →
      c.loader.incoming = [] →
      (fs.meta c.current_name).isSome = true →
      (fs.img c.current_name).isSome = true →
      (∀ im, fs.img c.current_name = some im → fs.texOk im = true) →
      (fs.meta nmB).isSome = true →
      (fs.img nmB).isSome = true →
      (ImageCache.load_next fs c).1 = Except.ok (texB, nmB) →
      ∃ texA,
        (ImageCache.load_prev fs (ImageCache.load_next fs c).2).1 =
          Except.ok (texA, c.current_name) ∧
        (ImageCache.load_prev fs (ImageCache.load_next fs c).2).2.current_name =
          c.current_name := by
  intro fs c texB nmB hnd hkn hcc hinc hmA hiA hupA hmB hiB hok
  obtain ⟨tA, htA⟩ := Option.isSome_iff_exists.mp hmA
  obtain ⟨imA, hiA2⟩ := Option.isSome_iff_exists.mp hiA
  set r := load_iter_next fs c.loader (c.dir_files ++ c.dir_files) c.dir_files c.current_name
    with hrdef
  have hln : ImageCache.load_next fs c = nav_wrap c r := rfl
  have hr1 : r.1 = Except.ok (texB, nmB) := by
    rw [← nav_wrap_fst c r, ← hln]
    exact hok
  cases hfc : findCurrent c.current_name (c.dir_files ++ c.dir_files) with
  | none =>
    have hcontra : r = (Except.error CErr.currentNotFound, c.loader) := by
      rw [hrdef]
      unfold load_iter_next
      simp only [hfc]
    rw [hcontra] at hr1
    exact absurd hr1 (by simp)
  | some restA =>
    have hrscan : r = next_scan fs c.dir_files restA c.loader := by
      rw [hrdef]
      unfold load_iter_next
      simp only [hfc]
    have hpair : r = (Except.ok (texB, nmB), r.2) := by
      rw [← hr1]
    set sN := r.2 with hsN
    have hscan : next_scan fs c.dir_files restA c.loader = (Except.ok (texB, nmB), sN) :=
      hrscan.symm.trans hpair
    obtain ⟨pre, eB, postB, hsplitA, heBf, heBn, hskips, hBok⟩ :=
      next_scan_ok_inv fs c.dir_files restA c.loader texB nmB sN hinc hscan
    obtain ⟨P, eA, hsplitL2, heAf, heAn, hnoP⟩ :=
      findCurrent_inv c.current_name (c.dir_files ++ c.dir_files) restA hfc
    obtain ⟨Q, hLP, hrestA⟩ :=
      split_first_hit c.dir_files c.current_name P eA restA hsplitL2 hnoP heAf heAn
    -- state facts after the B load
    have hstate := load_specific_state fs c.loader eB.name c.dir_files hinc hkn
    rw [hBok] at hstate
    obtain ⟨hincN, hknN, hlookN, hccN2⟩ := hstate
    have hccN : CacheConsistent fs sN := hccN2 hcc
    -- forward skips transfer to the post-B state
    have htransfer : ∀ g ∈ pre, g.isFile = true →
        load_specific fs sN g.name c.dir_files = (Except.error CErr.imgLoad, sN) := by
      intro g hg hgf
      have hskip0 := hskips g hg hgf
      obtain ⟨-, himg_g, tg, hmg⟩ :=
        load_specific_imgLoad_inv fs c.loader g.name c.dir_files c.loader hinc hskip0
      have hgne : g.name ≠ eB.name := by
        intro hcontra
        rw [hcontra, hBok] at hskip0
        simp at hskip0
      have htex0 : ∀ tex0, tcLookup g.name c.loader.texture_cache ≠
          some (CachedTexture.Texture tg tex0) := by
        intro tex0 hcontra
        have hhit := load_specific_hit fs c.loader g.name c.dir_files tg tex0 hinc hcontra hmg
        rw [hhit] at hskip0
        simp at hskip0
      have htexN : ∀ tex0, tcLookup g.name sN.texture_cache ≠
          some (CachedTexture.Texture tg tex0) := by
        intro tex0 hcontra
        rcases hlookN g.name hgne with heq | hnone
        · rw [heq] at hcontra
          exact htex0 tex0 hcontra
        · rw [hnone] at hcontra
          exact absurd hcontra (by simp)
      exact load_specific_imgLoad fs sN g.name c.dir_files tg hincN hmg himg_g htexN
    -- A loads successfully in the post-B state
    obtain ⟨texA, sP, hAokEq⟩ :=
      load_specific_ok_strong fs sN c.current_name c.dir_files tA imA hincN hknN hccN htA hiA2
        (hupA imA hiA2)
    -- the state after load_next
    set c2 : ImageCache := { c with loader := sN, current_name := nmB } with hc2def
    have hc2 : (ImageCache.load_next fs c).2 = c2 := by
      rw [hln, nav_wrap_ok c r (texB, nmB) hr1]
    have hlp : ImageCache.load_prev fs (ImageCache.load_next fs c).2 =
        nav_wrap c2 (load_iter_next fs sN ((c.dir_files ++ c.dir_files).reverse)
          c.dir_files nmB) := by
      rw [hc2]
      rfl
    -- the shared finishing move: skip a block of forward-skipped files
    -- backwards, then load A
    have hfinish : ∀ (skipL tail : List DirEntryM),
        (∀ g ∈ skipL, g ∈ pre) →
        findCurrent nmB ((c.dir_files ++ c.dir_files).reverse) =
          some (skipL ++ (eA :: tail)) →
        ∃ texA2,
          (ImageCache.load_prev fs (ImageCache.load_next fs c).2).1 =
            Except.ok (texA2, c.current_name) ∧
          (ImageCache.load_prev fs (ImageCache.load_next fs c).2).2.current_name =
            c.current_name := by
      intro skipL tail hsub hfcB
      have hskipN : ∀ g ∈ skipL, g.isFile = true →
          load_specific fs sN g.name c.dir_files = (Except.error CErr.imgLoad, sN) :=
        fun g hg => htransfer g (hsub g hg)
      have hscanB : next_scan fs c.dir_files (skipL ++ (eA :: tail)) sN =
          (Except.ok (texA, eA.name), sP) := by
        rw [next_scan_skip_front fs c.dir_files skipL _ sN hskipN]
        exact next_scan_cons_ok fs c.dir_files eA tail sN sP texA heAf
          (by rw [heAn]; exact hAokEq)
      have hiter : load_iter_next fs sN ((c.dir_files ++ c.dir_files).reverse)
          c.dir_files nmB = (Except.ok (texA, eA.name), sP) := by
        unfold load_iter_next
        simp only [hfcB]
        exact hscanB
      refine ⟨texA, ?_, ?_⟩
      · rw [hlp, nav_wrap_ok c2 _ (texA, eA.name) (by rw [hiter])]
        rw [heAn]
      · rw [hlp, nav_wrap_ok c2 _ (texA, eA.name) (by rw [hiter])]
        exact heAn
    -- locate eB relative to the split L = P ++ eA :: Q
    have hQL : Q ++ c.dir_files = pre ++ eB :: postB := by
      rw [← hrestA, hsplitA]
    by_cases hlen : pre.length < Q.length
    · -- case: eB still inside Q (no wraparound)
      obtain ⟨Q2, hQsplit, hpostB⟩ := split_lt pre Q c.dir_files eB postB hQL hlen
      have hL_a : c.dir_files = P ++ eA :: (pre ++ eB :: Q2) := by
        rw [hLP, hQsplit]
      have hL_a2 : c.dir_files = (P ++ eA :: pre) ++ eB :: Q2 := by
        rw [hL_a]
        simp [List.append_assoc]
      obtain ⟨-, hQ2ne⟩ := names_nodup_decomp c.dir_files (P ++ eA :: pre) Q2 eB hnd hL_a2
      have hLrev : c.dir_files.reverse =
          Q2.reverse ++ eB :: (pre.reverse ++ eA :: P.reverse) := by
        rw [hL_a]
        simp [List.reverse_append, List.reverse_cons, List.append_assoc]
      have hnoQ2 : ∀ g ∈ Q2.reverse, ¬(g.isFile = true ∧ g.name = nmB) := by
        intro g hg hcontra
        exact hQ2ne g (List.mem_reverse.mp hg) (by rw [hcontra.2, ← heBn])
      refine hfinish pre.reverse (P.reverse ++ c.dir_files.reverse)
        (fun g hg => List.mem_reverse.mp hg) ?_
      rw [List.reverse_append]
      nth_rewrite 1 [hLrev]
      have hassoc : (Q2.reverse ++ eB :: (pre.reverse ++ eA :: P.reverse)) ++
          c.dir_files.reverse =
          Q2.reverse ++ eB :: ((pre.reverse ++ eA :: P.reverse) ++ c.dir_files.reverse) := by
        simp [List.append_assoc]
      rw [hassoc, findCurrent_append_no nmB Q2.reverse _ hnoQ2,
        findCurrent_cons_hit nmB eB _ heBf heBn]
      congr 1
      simp [List.append_assoc]
    · -- eB is reached after wrapping past Q
      obtain ⟨pre2, hpre, hLsplit⟩ := split_ge Q pre c.dir_files eB postB hQL (by omega)
      have hPQ : P ++ eA :: Q = pre2 ++ eB :: postB := hLP.symm.trans hLsplit
      by_cases hlen2 : pre2.length < P.length
      · -- case: eB strictly before eA in the index
        obtain ⟨P2, hPsplit, hpostB2⟩ := split_lt pre2 P (eA :: Q) eB postB hPQ hlen2
        have hL_b : c.dir_files = pre2 ++ eB :: (P2 ++ eA :: Q) := by
          rw [hLsplit, hpostB2]
        obtain ⟨-, hYne⟩ := names_nodup_decomp c.dir_files pre2 (P2 ++ eA :: Q) eB hnd hL_b
        have hLrev : c.dir_files.reverse =
            Q.reverse ++ eA :: (P2.reverse ++ eB :: pre2.reverse) := by
          rw [hL_b]
          simp [List.reverse_append, List.reverse_cons, List.append_assoc]
        have hnoPre : ∀ g ∈ Q.reverse ++ eA :: P2.reverse,
            ¬(g.isFile = true ∧ g.name = nmB) := by
          intro g hg hcontra
          have hne : g.name ≠ eB.name := by
            rcases List.mem_append.mp hg with h1 | h1
            · exact hYne g (List.mem_append_right P2
                (List.mem_cons_of_mem eA (List.mem_reverse.mp h1)))
            · rcases List.mem_cons.mp h1 with rfl | h2
              · exact hYne g (List.mem_append_right P2 (List.mem_cons_self g Q))
              · exact hYne g (List.mem_append_left _ (List.mem_reverse.mp h2))
          exact hne (by rw [hcontra.2, ← heBn])
        refine hfinish (pre2.reverse ++ Q.reverse) (P2.reverse ++ eB :: pre2.reverse) ?_ ?_
        · intro g hg
          rw [hpre]
          rcases List.mem_append.mp hg with h1 | h1
          · exact List.mem_append_right Q (List.mem_reverse.mp h1)
          · exact List.mem_append_left pre2 (List.mem_reverse.mp h1)
        · rw [List.reverse_append]
          nth_rewrite 1 [hLrev]
          have hassoc : (Q.reverse ++ eA :: (P2.reverse ++ eB :: pre2.reverse)) ++
              c.dir_files.reverse =
              (Q.reverse ++ eA :: P2.reverse) ++
                eB :: (pre2.reverse ++ c.dir_files.reverse) := by
            simp [List.append_assoc]
          rw [hassoc, findCurrent_append_no nmB _ _ hnoPre,
            findCurrent_cons_hit nmB eB _ heBf heBn]
          nth_rewrite 1 [hLrev]
          congr 1
          simp [List.append_assoc]
      · -- case: eB is eA itself (full wraparound)
        obtain ⟨p3, hpre2, hyq⟩ := split_ge P pre2 (eA :: Q) eB postB hPQ (by omega)
        cases p3 with
        | cons z p3x =>
          exfalso
          rw [List.cons_append] at hyq
          injection hyq with hz hq2
          subst hz
          have heAmem : eA ∈ pre := by
            rw [hpre, hpre2]
            exact List.mem_append_right Q
              (List.mem_append_right P (List.mem_cons_self eA p3x))
          have hskipA := hskips eA heAmem heAf
          obtain ⟨texZ, sZ, hZ⟩ :=
            load_specific_ok_strong fs c.loader c.current_name c.dir_files tA imA
              hinc hkn hcc htA hiA2 (hupA imA hiA2)
          rw [heAn, hZ] at hskipA
          simp at hskipA
        | nil =>
          rw [List.append_nil] at hpre2
          rw [List.nil_append] at hyq
          injection hyq with heAB hQpostB
          have hnmA : eA.name = nmB := by rw [heAB]; exact heBn
          obtain ⟨-, hQne⟩ := names_nodup_decomp c.dir_files P Q eA hnd hLP
          have hnoQrev : ∀ g ∈ Q.reverse, ¬(g.isFile = true ∧ g.name = nmB) := by
            intro g hg hcontra
            exact hQne g (List.mem_reverse.mp hg) (by rw [hcontra.2, ← hnmA])
          have hLrev : c.dir_files.reverse = Q.reverse ++ eA :: P.reverse := by
            rw [hLP]
            simp [List.reverse_append, List.reverse_cons, List.append_assoc]
          refine hfinish (P.reverse ++ Q.reverse) P.reverse ?_ ?_
          · intro g hg
            rw [hpre, hpre2]
            rcases List.mem_append.mp hg with h1 | h1
            · exact List.mem_append_right Q (List.mem_reverse.mp h1)
            · exact List.mem_append_left P (List.mem_reverse.mp h1)
          · rw [List.reverse_append]
            nth_rewrite 1 [hLrev]
            have hassoc : (Q.reverse ++ eA :: P.reverse) ++ c.dir_files.reverse =
                Q.reverse ++ eA :: (P.reverse ++ c.dir_files.reverse) := by
              simp [List.append_assoc]
            rw [hassoc, findCurrent_append_no nmB Q.reverse _ hnoQrev,
              findCurrent_cons_hit nmB eA _ heAf hnmA]
            nth_rewrite 1 [hLrev]
            congr 1
            simp [List.append_assoc]

/-- Witness for C8 at a concrete run: directory `[a.png, b.png]`, both
decodable, fresh loader, cursor `a.png`; `load_next` lands on `b.png`
and the theorem yields the `load_prev` round-trip back to `a.png`. -/
theorem claim_C8_next_prev_roundtrip_witness :
    (names_of dirAB).Nodup ∧
    (ImageCache.load_next fsAB ⟨aPngS, dirAB, TextureLoader.init 1000000⟩).1 =
      Except.ok (⟨0, 10, 10⟩, bPngS) ∧
    ∃ texA,
      (ImageCache.load_prev fsAB
        (ImageCache.load_next fsAB ⟨aPngS, dirAB, TextureLoader.init 1000000⟩).2).1 =
        Except.ok (texA, aPngS) ∧
      (ImageCache.load_prev fsAB
        (ImageCache.load_next fsAB ⟨aPngS, dirAB, TextureLoader.init 1000000⟩).2).2.current_name =
        aPngS :=
  ⟨by decide, by decide,
   claim_C8_next_prev_roundtrip fsAB ⟨aPngS, dirAB, TextureLoader.init 1000000⟩
     ⟨0, 10, 10⟩ bPngS
     (by decide) List.nodup_nil
     (fun p t tex h => Option.noConfusion h)
     rfl
     (by decide) (by decide) (fun im h => rfl) (by decide) (by decide)
     (by decide)⟩

/-- Counterexample to C8 as claimed: directory `[a.png, b.png]`, cursor
`a.png`, fresh loader, a filesystem on which both files stat and decode
but the renderer rejects `a.png`'s 2x2 decoded image.  Every hypothesis
of the claimed round-trip holds — distinct names, duplicate-free
consistent cache, empty response queue, both files stat and decode, and
`load_next` succeeds onto `b.png` — yet `load_prev` does not return to
`a.png`: the budget is charged, the upload raises
`TextureCreationError`, the backward scan aborts (only
`ImageLoadError` is skipped), and the cursor stays on `b.png`. -/
theorem claim_C8_counterexample :
    (names_of dirAB).Nodup ∧
    KeysNodup (TextureLoader.init 1000000).texture_cache ∧
    CacheConsistent fsUploadA (TextureLoader.init 1000000) ∧
    (TextureLoader.init 1000000).incoming = [] ∧
    (fsUploadA.meta aPngS).isSome = true ∧
    (fsUploadA.img aPngS).isSome = true ∧
    (fsUploadA.meta bPngS).isSome = true ∧
    (fsUploadA.img bPngS).isSome = true ∧
    (ImageCache.load_next fsUploadA ⟨aPngS, dirAB, TextureLoader.init 1000000⟩).1 =
      Except.ok (⟨0, 1, 1⟩, bPngS) ∧
    (ImageCache.load_prev fsUploadA
      (ImageCache.load_next fsUploadA ⟨aPngS, dirAB, TextureLoader.init 1000000⟩).2).1 =
      Except.error CErr.texCreate ∧
    (ImageCache.load_prev fsUploadA
      (ImageCache.load_next fsUploadA
        ⟨aPngS, dirAB, TextureLoader.init 1000000⟩).2).2.current_name = bPngS :=
  ⟨by decide, List.nodup_nil, fun p t tex h => Option.noConfusion h, rfl,
   by decide, by decide, by decide, by decide, by decide, by decide, by decide⟩

/-! ## C2 — the amended accounting bound -/

/-- A failed texture upload leaks the already-charged budget: the code
subtracts the size estimate (image_cache.rs line 295) before the
fallible GPU upload (line 297), so when the renderer rejects the image
the operation aborts with the estimate gone and nothing cached, and the
accounted total ends strictly below the budget. -/
theorem upload_failure_budget_leak :
    is_abnormal (run_op (CacheOp.loadSpec fsUploadA aPngS dirAB)
        (TextureLoader.init 100)).1 = true ∧
    (run_ops [CacheOp.loadSpec fsUploadA aPngS dirAB]
        (TextureLoader.init 100)).remaining_capacity +
      loaded_sum (run_ops [CacheOp.loadSpec fsUploadA aPngS dirAB]
        (TextureLoader.init 100)).texture_cache = 76 ∧
    (76 : Int) < 100 :=
  ⟨by decide, by decide, by decide⟩

/-- C2 (amended): starting from a fresh loader with configured budget
`capacity`, after any sequence of completed (non-panicking) cache
operations — `load_specific`, `process_prefetched`,
`send_load_requests`, and worker deliveries — `remaining_capacity` plus
the sum of the size estimates of all `Loaded` entries never exceeds the
budget, and equals it exactly on clean runs, those in which no texture
upload fails: the budget is charged (image_cache.rs line 295) before
the fallible upload (line 297), so each `TextureCreationError` leaks
the charged estimate and leaves the total strictly below the budget.
(The original bound, sum of estimates at most budget plus one pending
admission's estimate, is refuted by `claim_C2_counterexample`.) -/
theorem claim_C2_amended_accounting :
    ∀ (capacity : Int) (ops : List CacheOp),
      ((run_ops ops (TextureLoader.init capacity)).remaining_capacity +
        loaded_sum (run_ops ops (TextureLoader.init capacity)).texture_cache ≤ capacity) ∧
      (clean_run ops (TextureLoader.init capacity) = true →
        (run_ops ops (TextureLoader.init capacity)).remaining_capacity +
          loaded_sum (run_ops ops (TextureLoader.init capacity)).texture_cache = capacity) := by
  intro capacity ops
  have hinit : acct (TextureLoader.init capacity) = capacity := by
    unfold acct TextureLoader.init loaded_sum
    simp
  constructor
  · have hle := run_ops_acct_le ops (TextureLoader.init capacity)
    rw [hinit] at hle
    exact hle
  · intro hclean
    have heq := run_ops_acct_eq ops (TextureLoader.init capacity) hclean
    rw [hinit] at heq
    exact heq

/-- Witness for the amended C2 at a concrete run: budget 10, load
`b.png` then `a.png` (the counterexample run — completed, clean),
after which `remaining_capacity + loaded_sum = -1190 + 1200 = 10`. -/
theorem claim_C2_amended_accounting_witness :
    clean_run [CacheOp.loadSpec fsAB bPngS dirAB, CacheOp.loadSpec fsAB aPngS dirAB]
        (TextureLoader.init 10) = true ∧
    (run_ops [CacheOp.loadSpec fsAB bPngS dirAB, CacheOp.loadSpec fsAB aPngS dirAB]
        (TextureLoader.init 10)).remaining_capacity +
      loaded_sum (run_ops [CacheOp.loadSpec fsAB bPngS dirAB, CacheOp.loadSpec fsAB aPngS dirAB]
        (TextureLoader.init 10)).texture_cache = 10 :=
  ⟨by decide,
   (claim_C2_amended_accounting 10
     [CacheOp.loadSpec fsAB bPngS dirAB, CacheOp.loadSpec fsAB aPngS dirAB]).2 (by decide)⟩

end Emulsion
